import Mathlib

/-!
Verification of the Worderly level-generation engine (worderly.py /
worderly_classes.py) against its specification.

Shallow embedding conventions:
* Python strings are `List Char`; `str.lower`/`str.upper` act per character
  via `Char.toLower` / `Char.toUpper` (ASCII case mapping, as in the
  basic-latin word lists the program consumes).
* Grid coordinates are `Int` (Python ints); out-of-bounds reads return the
  sentinel character and out-of-bounds writes are no-ops, exactly as in
  `GameGrid.get_cell` / `GameGrid.set_cell`.
* Python dicts (`GameState.game_words`) are association lists with
  replace-in-place insertion, mirroring dict assignment semantics.
* Randomness (`random.shuffle`, `random.choice`, `random.randint`) is an
  oracle: shuffles become universally quantified permutations of the lists
  involved, and each drawn number is taken from an explicit stream of
  naturals, reduced modulo the size of the range being drawn from.
* Python functions that mutate list arguments in place (the sub-word pool)
  are modelled by returning the updated list alongside the other results.
-/

/-! ### Character-level facts about the ASCII case maps -/

/-! ### Data model: worderly_classes.py -/

/-- Embedding of `LevelConfig` (worderly_classes.py): immutable generation
parameters, all fields with their dataclass defaults. -/
structure LevelConfig where
  rows : ℕ := 15
  columns : ℕ := 25
  word_length : ℕ := 6
  min_subwords : ℕ := 20
  min_vertical_words : ℕ := 4
  max_total_words : ℕ := 25
  max_attempts : ℕ := 100

/-- `LevelConfig.center_row`: Python `-(-self.rows // 2) - self.word_length`,
with Python floor division rendered as `Int.fdiv`. -/

def LevelConfig.center_row (c : LevelConfig) : Int :=
  -((-(c.rows : Int)).fdiv 2) - (c.word_length : Int)

/-- `LevelConfig.center_col`: Python `-(-self.columns // 2) - self.word_length`. -/

def LevelConfig.center_col (c : LevelConfig) : Int :=
  -((-(c.columns : Int)).fdiv 2) - (c.word_length : Int)

/-- The default configuration `LevelConfig()` used throughout worderly.py. -/

def config : LevelConfig := {}

/-- Embedding of `GameGrid` (worderly_classes.py): the grid rows are lists of
characters (Python strings). -/

structure GameGrid where
  rows : ℕ := 15
  columns : ℕ := 25
  grid : List (List Char) := []
  deriving DecidableEq

/-- `GameGrid.get_cell`: returns the stored character inside bounds and the
sentinel `'.'` outside bounds.  The inner `getD` accesses mirror Python
indexing, which never fails on the well-formed grids the program builds. -/

def GameGrid.get_cell (g : GameGrid) (row col : Int) : Char :=
  if 0 ≤ row ∧ row < (g.rows : Int) ∧ 0 ≤ col ∧ col < (g.columns : Int) then
    (g.grid.getD row.toNat []).getD col.toNat '.'
  else '.'

/-- `GameGrid.set_cell`: in bounds, rebuilds the row by string slicing
(`row[:col] + char + row[col+1:]`); out of bounds it is a no-op. -/

def GameGrid.set_cell (g : GameGrid) (row col : Int) (ch : Char) : GameGrid :=
  if 0 ≤ row ∧ row < (g.rows : Int) ∧ 0 ≤ col ∧ col < (g.columns : Int) then
    let oldrow := g.grid.getD row.toNat []
    let newrow := oldrow.take col.toNat ++ [ch] ++ oldrow.drop (col.toNat + 1)
    { g with grid := g.grid.set row.toNat newrow }
  else g

/-- `make_grid` (worderly.py): `GameGrid()` whose `__post_init__` fills the
grid with 15 rows of 25 `'.'` characters. -/

def make_grid : GameGrid :=
  { rows := 15, columns := 25, grid := List.replicate 15 (List.replicate 25 '.') }

/-- Embedding of `GameWord` (worderly_classes.py).  `GridPosition` values are
plain `Int × Int` pairs; the `__post_init__` tuple conversion is the identity
under this representation. -/

structure GameWord where
  word : List Char
  positions : List (Int × Int) := []
  is_main_word : Bool := false
  direction : String := "horizontal"
  deriving DecidableEq

/-- Python dict assignment `d[k] = v` on an association list: replace the
binding in place if the key exists, otherwise append at the end. -/

def dict_insert (k : List Char) (v : GameWord) :
    List (List Char × GameWord) → List (List Char × GameWord)
  | [] => [(k, v)]
  | (k', v') :: rest =>
      if k' = k then (k, v) :: rest else (k', v') :: dict_insert k v rest

/-- Python dict lookup `d.get(k)` on an association list. -/

def dict_get (k : List Char) : List (List Char × GameWord) → Option GameWord
  | [] => none
  | (k', v') :: rest => if k' = k then some v' else dict_get k rest

/-- Embedding of `GameState` (worderly_classes.py); the gameplay-only fields
(`lives`, `points`, `guessed_words`, `last_guessed_word`,
`revealed_positions`) are carried but never consulted by level generation. -/

structure GameState where
  main_word : List Char
  subwords : List (List Char)
  lives : ℕ := 5
  points : ℕ := 0
  game_words : List (List Char × GameWord) := []
  deriving DecidableEq

/-- `GameState.add_word`: stores a `GameWord` under the word text. -/

def GameState.add_word (gs : GameState) (word : List Char)
    (positions : List (Int × Int)) (is_main : Bool) (direction : String) :
    GameState :=
  let gw : GameWord :=
    { word := word, positions := positions, is_main_word := is_main,
      direction := direction }
  { gs with game_words := dict_insert word gw gs.game_words }

/-- `GameState.get_word_positions`: the stored cell sequence, or `[]`. -/

def GameState.get_word_positions (gs : GameState) (word : List Char) :
    List (Int × Int) :=
  match dict_get word gs.game_words with
  | some gw => gw.positions
  | none => []

/-! ### Lexicon filter: worderly.py lines 10-41 -/

/-- Python `str.strip()` (whitespace trim at both ends). -/

def py_strip (w : List Char) : List Char :=
  ((w.dropWhile Char.isWhitespace).reverse.dropWhile Char.isWhitespace).reverse

/-- `valid_subword(word, main_word)` (worderly.py lines 10-18): lowercases the
main word only, rejects exact equality with the lowered main word, then
checks per-letter multiset containment against the lowered main word. -/

def valid_subword (word main_word : List Char) : Bool :=
  let m := main_word.map Char.toLower
  if word = m then false
  else word.all (fun letter => word.count letter ≤ m.count letter)

/-- `get_subsets(main_word, wordlist)` (worderly.py lines 20-27). -/

def get_subsets (main_word : List Char) (wordlist : List (List Char)) :
    List (List Char) :=
  let three_to_six :=
    (wordlist.filter
        (fun w => decide (3 ≤ (py_strip w).length ∧ (py_strip w).length ≤ 6))).map
      py_strip
  three_to_six.filter (fun w => valid_subword w main_word)

/-- `six_letter_wordlist(wordlist)` (worderly.py lines 29-31). -/

def six_letter_wordlist (wordlist : List (List Char)) : List (List Char) :=
  (wordlist.filter (fun w => decide ((py_strip w).length = 6))).map py_strip

/-- `pick_valid_main_word(wordlist)` (worderly.py lines 33-41).  The first
argument is the six-letter candidate list after `random.shuffle`; the scan
returns the first candidate with at least `config.min_subwords` sub-words,
and `none` when the Python function falls off the end returning `None`. -/

def pick_valid_main_word :
    List (List Char) → List (List Char) → Option (List Char × List (List Char))
  | [], _ => none
  | w :: rest, wordlist =>
      let subs := get_subsets w wordlist
      if config.min_subwords ≤ subs.length then some (w, subs)
      else pick_valid_main_word rest wordlist

/-! ### Leaderboard: worderly_classes.py lines 115-224 -/

/-- Embedding of `LeaderboardEntry` (worderly_classes.py). -/

structure LeaderboardEntry where
  player_name : List Char
  streak_length : Int
  total_points : Int
  timestamp : List Char := []

/-- The sort key comparison used by `_sort_entries`: entry `a` precedes entry
`b` when `(a.streak_length, a.total_points)` is lexicographically at least
`(b.streak_length, b.total_points)`. -/

def entry_ge (a b : LeaderboardEntry) : Prop :=
  b.streak_length < a.streak_length ∨
    (a.streak_length = b.streak_length ∧ b.total_points ≤ a.total_points)

instance (a b : LeaderboardEntry) : Decidable (entry_ge a b) := by
  unfold entry_ge
  infer_instance

/-- Strict version of the key comparison, used for stable insertion. -/

def entry_gt (a b : LeaderboardEntry) : Bool :=
  decide (b.streak_length < a.streak_length ∨
    (a.streak_length = b.streak_length ∧ b.total_points < a.total_points))

/-- Stable descending insertion: the new entry passes over strictly greater
keys and lands before the first entry whose key is not strictly greater. -/

def insert_desc (e : LeaderboardEntry) : List LeaderboardEntry → List LeaderboardEntry
  | [] => [e]
  | x :: rest => if entry_gt x e then x :: insert_desc e rest else e :: x :: rest

/-- `Leaderboard._sort_entries` (worderly_classes.py lines 188-190):
`list.sort(key=..., reverse=True)`, a stable descending sort by
`(streak_length, total_points)`, rendered as stable insertion sort. -/

def sort_entries : List LeaderboardEntry → List LeaderboardEntry
  | [] => []
  | x :: rest => insert_desc x (sort_entries rest)

/-- Embedding of `Leaderboard`; the JSON file persistence is abstracted away
(`save_leaderboard` performs no list mutation). -/

structure Leaderboard where
  entries : List LeaderboardEntry := []

/-- `Leaderboard.add_entry` (worderly_classes.py lines 172-186): builds the
entry (the `datetime.now` timestamp is a parameter here), appends it and
re-sorts. -/

def Leaderboard.add_entry (lb : Leaderboard) (player_name : List Char)
    (streak_length total_points : Int) (timestamp : List Char) : Leaderboard :=
  let entry : LeaderboardEntry :=
    { player_name := player_name, streak_length := streak_length,
      total_points := total_points, timestamp := timestamp }
  { lb with entries := sort_entries (lb.entries ++ [entry]) }

/-- `Leaderboard.load_leaderboard` (worderly_classes.py lines 151-161), pure
core: the JSON decode result is the input; the in-memory entries are the
decoded records sorted. -/

def load_leaderboard (decoded : List LeaderboardEntry) : List LeaderboardEntry :=
  sort_entries decoded

/-- `Leaderboard.get_top_entries` (worderly_classes.py lines 192-194). -/

def Leaderboard.get_top_entries (lb : Leaderboard) (limit : ℕ) :
    List LeaderboardEntry :=
  lb.entries.take limit

/-! ### Placement validators: worderly.py lines 148-201 and 246-297 -/

/-- `ver_can_be_placed(grid, subword, row_0, col_0, loc)` (worderly.py lines
148-201).  The sequence of early `return False` checks of the Python
function is rendered as one boolean conjunction; `loc` is the index of the
shared letter inside `subword`. -/

def ver_can_be_placed (grid : GameGrid) (subword : List Char)
    (row_0 col_0 : Int) (loc : ℕ) : Bool :=
  let top_row := row_0 - (loc : Int) - 1
  let bottom_row := row_0 + ((subword.length : Int) - (loc : Int))
  (if 0 ≤ top_row ∧ top_row < (config.rows : Int) then
    grid.get_cell top_row col_0 == '.'
  else true) &&
  (if 0 ≤ bottom_row ∧ bottom_row < (config.rows : Int) then
    grid.get_cell bottom_row col_0 == '.'
  else true) &&
  (List.range subword.length).all (fun i =>
    let offset : Int := (i : Int) - (loc : Int)
    let row := row_0 + offset
    let col := col_0
    decide (0 ≤ row ∧ row < (config.rows : Int) ∧
      0 ≤ col ∧ col < (config.columns : Int)) &&
    (grid.get_cell row col == '.' || grid.get_cell row col == subword.getD i ' ') &&
    (offset == 0 ||
      [(-1 : Int), 0, 1].all (fun s =>
        if i = 0 then
          [(-1 : Int), 0].all (fun t =>
            if 0 ≤ row + t then
              if 0 ≤ col + s ∧ col + s < (config.columns : Int) ∧
                  0 ≤ row + t ∧ row + t < (config.rows : Int) then
                grid.get_cell (row + t) (col + s) == '.'
              else true
            else true)
        else if i = subword.length - 1 then
          [(0 : Int), 1].all (fun b =>
            if row + b < (config.rows : Int) then
              if 0 ≤ col + s ∧ col + s < (config.columns : Int) ∧
                  0 ≤ row + b ∧ row + b < (config.rows : Int) then
                grid.get_cell (row + b) (col + s) == '.'
              else true
            else true)
        else
          if 0 ≤ col + s ∧ col + s < (config.columns : Int) then
            grid.get_cell row (col_0 + s) == '.'
          else true)))

/-- `hor_can_be_placed(grid, subword, row_0, col_0, loc)` (worderly.py lines
246-297), the horizontal transpose of `ver_can_be_placed`. -/

def hor_can_be_placed (grid : GameGrid) (subword : List Char)
    (row_0 col_0 : Int) (loc : ℕ) : Bool :=
  let left_col := col_0 - (loc : Int) - 1
  let right_col := col_0 + ((subword.length : Int) - (loc : Int))
  (if 0 ≤ left_col ∧ left_col < (config.columns : Int) then
    grid.get_cell row_0 left_col == '.'
  else true) &&
  (if 0 ≤ right_col ∧ right_col < (config.columns : Int) then
    grid.get_cell row_0 right_col == '.'
  else true) &&
  (List.range subword.length).all (fun i =>
    let offset : Int := (i : Int) - (loc : Int)
    let col := col_0 + offset
    let row := row_0
    decide (0 ≤ row ∧ row < (config.rows : Int) ∧
      0 ≤ col ∧ col < (config.columns : Int)) &&
    (grid.get_cell row col == '.' || grid.get_cell row col == subword.getD i ' ') &&
    (offset == 0 ||
      [(-1 : Int), 0, 1].all (fun s =>
        if i = 0 then
          [(-1 : Int), 0].all (fun j =>
            if 0 ≤ col + j ∧ col + j < (config.columns : Int) ∧
                0 ≤ row + s ∧ row + s < (config.rows : Int) then
              grid.get_cell (row + s) (col + j) == '.'
            else true)
        else if i = subword.length - 1 then
          [(0 : Int), 1].all (fun r =>
            if 0 ≤ col + r ∧ col + r < (config.columns : Int) ∧
                0 ≤ row + s ∧ row + s < (config.rows : Int) then
              grid.get_cell (row + s) (col + r) == '.'
            else true)
        else
          if 0 ≤ row + s ∧ row + s < (config.rows : Int) then
            grid.get_cell (row + s) col == '.'
          else true)))

/-! ### Placement engine: worderly.py lines 56-330 -/

/-- Python `str.index` / `list.index` for a character known to occur; on a
missing character it returns the length (all call sites guard membership,
where Python would raise `ValueError`). -/

def py_index (c : Char) : List Char → ℕ
  | [] => 0
  | x :: rest => if x = c then 0 else py_index c rest + 1

/-- Scan of `for subword in subwords[:]` with `subwords.remove(subword)` and
`break` on the first element satisfying `p`: returns the elements before the
match, the match, and the elements after it. -/

def extract_first (p : List Char → Bool) :
    List (List Char) → Option (List (List Char) × List Char × List (List Char))
  | [] => none
  | w :: rest =>
      if p w then some ([], w, rest)
      else
        match extract_first p rest with
        | none => none
        | some (pre, x, post) => some (w :: pre, x, post)

/-- Letter loop of `main_word_diagonal` (worderly.py lines 60-66): writes
each uppercased letter at `(center_row + 2*i, center_col + 2*i)` and records
the position. -/

def diag_write_loop : ℕ → List Char → GameGrid → GameGrid × List (Int × Int)
  | _, [], grid => (grid, [])
  | i, letter :: rest, grid =>
      let row_0 := config.center_row + (i : Int) * 2
      let col_0 := config.center_col + (i : Int) * 2
      let grid' := grid.set_cell row_0 col_0 (Char.toUpper letter)
      let res := diag_write_loop (i + 1) rest grid'
      (res.1, (row_0, col_0) :: res.2)

/-- `main_word_diagonal(word, grid, game_state)` (worderly.py lines 56-69). -/

def main_word_diagonal (word : List Char) (grid : GameGrid)
    (game_state : GameState) : GameGrid × GameState :=
  let res := diag_write_loop 0 word grid
  (res.1, game_state.add_word (word.map Char.toUpper) res.2 true "diagonal")

/-- Letter loop of `place_main_subwords` (worderly.py lines 82-92): the
intersection letter is written uppercased unconditionally (set_cell guards
bounds internally), other letters are written only in bounds, and every
position is recorded regardless of bounds. -/

def hor_main_write_loop (row_0 col_0 : Int) (loc : ℕ) :
    ℕ → List Char → GameGrid → GameGrid × List (Int × Int)
  | _, [], grid => (grid, [])
  | j, letter :: rest, grid =>
      let hor_off : Int := (j : Int) - (loc : Int)
      let col_1 := col_0 + hor_off
      let grid' :=
        if hor_off = 0 then grid.set_cell row_0 col_1 (Char.toUpper letter)
        else if 0 ≤ row_0 ∧ row_0 < (config.rows : Int) ∧
            0 ≤ col_1 ∧ col_1 < (config.columns : Int) then
          grid.set_cell row_0 col_1 letter
        else grid
      let res := hor_main_write_loop row_0 col_0 loc (j + 1) rest grid'
      (res.1, (row_0, col_1) :: res.2)

/-- Outer loop of `place_main_subwords` over the enumerated main word. -/

def place_main_subwords_loop :
    ℕ → List Char → List (List Char) → GameGrid → GameState →
    List (List Char) × GameGrid × GameState
  | _, [], subwords, grid, gs => (subwords, grid, gs)
  | i, main_letter :: rest, subwords, grid, gs =>
      let row_0 := config.center_row + (i : Int) * 2
      let col_0 := config.center_col + (i : Int) * 2
      match extract_first (fun subword => decide (main_letter ∈ subword)) subwords with
      | none => place_main_subwords_loop (i + 1) rest subwords grid gs
      | some (pre, subword, post) =>
          let loc := py_index main_letter subword
          let res := hor_main_write_loop row_0 col_0 loc 0 subword grid
          let gs' := gs.add_word subword res.2 false "horizontal"
          place_main_subwords_loop (i + 1) rest (pre ++ post) res.1 gs'

/-- `place_main_subwords(word, subwords, grid, game_state)` (worderly.py
lines 71-98); the updated pool is returned (Python mutates it in place). -/

def place_main_subwords (word : List Char) (subwords : List (List Char))
    (grid : GameGrid) (game_state : GameState) :
    List (List Char) × GameGrid × GameState :=
  place_main_subwords_loop 0 word subwords grid game_state

/-- Letter loop of `place_vertical_subwords` (worderly.py lines 124-136). -/

def ver_write_loop (row_0 col_0 : Int) (loc : ℕ) :
    ℕ → List Char → GameGrid → GameGrid × List (Int × Int)
  | _, [], grid => (grid, [])
  | j, letter :: rest, grid =>
      let ver_off : Int := (j : Int) - (loc : Int)
      let row_1 := row_0 + ver_off
      let grid' :=
        if ver_off = 0 then grid
        else if 0 ≤ row_1 ∧ row_1 < (config.rows : Int) then
          grid.set_cell row_1 col_0 letter
        else grid
      let res := ver_write_loop row_0 col_0 loc (j + 1) rest grid'
      (res.1, (row_1, col_0) :: res.2)

/-- `place_vertical_subwords(word, subwords, grid, game_state,
vertical_count)` (worderly.py lines 100-146).  The random index drawn by
`random.randint(0, len(word) - 1)` is the head of the oracle stream reduced
modulo `len(word)`. -/

def place_vertical_subwords (word : List Char) (subwords : List (List Char))
    (grid : GameGrid) (game_state : GameState) (vertical_count : ℕ)
    (rng : List ℕ) :
    GameGrid × GameState × ℕ × List (List Char) × List ℕ :=
  let word_positions := game_state.get_word_positions word
  if word_positions = [] then (grid, game_state, vertical_count, subwords, rng)
  else
    let r_int := rng.headD 0 % word.length
    let rng' := rng.tail
    let main_letter := word.getD r_int ' '
    let pos := word_positions.getD r_int (0, 0)
    match extract_first (fun subword => decide (main_letter ∈ subword) &&
        ver_can_be_placed grid subword pos.1 pos.2 (py_index main_letter subword))
        subwords with
    | none => (grid, game_state, vertical_count, subwords, rng')
    | some (pre, subword, post) =>
        let loc := py_index main_letter subword
        let res := ver_write_loop pos.1 pos.2 loc 0 subword grid
        let gs' := game_state.add_word subword res.2 false "vertical"
        (res.1, gs', vertical_count + 1, pre ++ post, rng')

/-- Letter loop of `place_horizontal_subwords` (worderly.py lines 224-236). -/

def hor_write_loop (row_0 col_0 : Int) (loc : ℕ) :
    ℕ → List Char → GameGrid → GameGrid × List (Int × Int)
  | _, [], grid => (grid, [])
  | j, letter :: rest, grid =>
      let hor_off : Int := (j : Int) - (loc : Int)
      let col_1 := col_0 + hor_off
      let grid' :=
        if hor_off = 0 then grid
        else if 0 ≤ col_1 ∧ col_1 < (config.columns : Int) then
          grid.set_cell row_0 col_1 letter
        else grid
      let res := hor_write_loop row_0 col_0 loc (j + 1) rest grid'
      (res.1, (row_0, col_1) :: res.2)

/-- `place_horizontal_subwords(word, subwords, grid, game_state,
horizontal_count)` (worderly.py lines 203-244). -/

def place_horizontal_subwords (word : List Char) (subwords : List (List Char))
    (grid : GameGrid) (game_state : GameState) (horizontal_count : ℕ)
    (rng : List ℕ) :
    GameGrid × GameState × ℕ × List (List Char) × List ℕ :=
  let word_positions := game_state.get_word_positions word
  if word_positions = [] then (grid, game_state, horizontal_count, subwords, rng)
  else
    let c_int := rng.headD 0 % word.length
    let rng' := rng.tail
    let main_letter := word.getD c_int ' '
    let pos := word_positions.getD c_int (0, 0)
    match extract_first (fun subword => decide (main_letter ∈ subword) &&
        hor_can_be_placed grid subword pos.1 pos.2 (py_index main_letter subword))
        subwords with
    | none => (grid, game_state, horizontal_count, subwords, rng')
    | some (pre, subword, post) =>
        let loc := py_index main_letter subword
        let res := hor_write_loop pos.1 pos.2 loc 0 subword grid
        let gs' := game_state.add_word subword res.2 false "horizontal"
        (res.1, gs', horizontal_count + 1, pre ++ post, rng')

/-- The list comprehension `[word for word, gw in game_words.items() if
gw.direction == "horizontal"]` used by the filling loops. -/

def horizontal_words (gs : GameState) : List (List Char) :=
  (gs.game_words.filter (fun e => e.2.direction == "horizontal")).map
    (fun e => e.1)

/-- The corresponding comprehension for vertical words. -/

def vertical_words (gs : GameState) : List (List Char) :=
  (gs.game_words.filter (fun e => e.2.direction == "vertical")).map
    (fun e => e.1)

/-- The bootstrap-vertical `while` loop of `play_game` (worderly.py lines
463-471): runs while `vertical_count < config.min_vertical_words` and
`attempts < config.max_attempts // 5`; the fuel argument is the number of
remaining attempts (`config.max_attempts // 5 - attempts`), and the final
value of the `attempts` counter is returned. -/

def bootstrap_loop :
    ℕ → GameGrid → GameState → List (List Char) → ℕ → List ℕ → ℕ →
    GameGrid × GameState × List (List Char) × ℕ × List ℕ × ℕ
  | 0, grid, gs, subwords, vcount, rng, attempts =>
      (grid, gs, subwords, vcount, rng, attempts)
  | fuel + 1, grid, gs, subwords, vcount, rng, attempts =>
      if vcount < config.min_vertical_words then
        let hw := horizontal_words gs
        if hw = [] then (grid, gs, subwords, vcount, rng, attempts)
        else
          let x := rng.headD 0
          let rng' := rng.tail
          let word1 := hw.getD (x % hw.length) []
          match place_vertical_subwords word1 subwords grid gs vcount rng' with
          | (grid', gs', vcount', subwords', rng'') =>
              bootstrap_loop fuel grid' gs' subwords' vcount' rng'' (attempts + 1)
      else (grid, gs, subwords, vcount, rng, attempts)

/-- The `while` loop of `place_remaining_subwords_until_20` (worderly.py
lines 310-328): runs while `count < config.max_total_words` and
`attempts < config.max_attempts`, with `count = vertical_count +
horizontal_count + 7`; the fuel argument is the number of remaining
attempts, and the final `attempts` counter and direction are returned. -/

def fill_loop :
    ℕ → GameGrid → List (List Char) → GameState → ℕ → ℕ → String → List ℕ → ℕ →
    GameGrid × GameState × List (List Char) × ℕ × ℕ × String × List ℕ × ℕ
  | 0, grid, subwords, gs, vcount, hcount, direction, rng, attempts =>
      (grid, gs, subwords, vcount, hcount, direction, rng, attempts)
  | fuel + 1, grid, subwords, gs, vcount, hcount, direction, rng, attempts =>
      if vcount + hcount + 7 < config.max_total_words then
        let hw := horizontal_words gs
        let vw := vertical_words gs
        if direction = "vertical" ∧ hw ≠ [] then
          let x := rng.headD 0
          let rng' := rng.tail
          let word := hw.getD (x % hw.length) []
          match place_vertical_subwords word subwords grid gs vcount rng' with
          | (grid', gs', vcount', subwords', rng'') =>
              fill_loop fuel grid' subwords' gs' vcount' hcount "horizontal"
                rng'' (attempts + 1)
        else if direction = "horizontal" ∧ vw ≠ [] then
          let x := rng.headD 0
          let rng' := rng.tail
          let word := vw.getD (x % vw.length) []
          match place_horizontal_subwords word subwords grid gs hcount rng' with
          | (grid', gs', hcount', subwords', rng'') =>
              fill_loop fuel grid' subwords' gs' vcount hcount' "vertical"
                rng'' (attempts + 1)
        else (grid, gs, subwords, vcount, hcount, direction, rng, attempts)
      else (grid, gs, subwords, vcount, hcount, direction, rng, attempts)

/-- `place_remaining_subwords_until_20(grid, subwords, game_state,
vertical_count, horizontal_count)` (worderly.py lines 299-330).  The random
initial direction `random.choice(("vertical", "horizontal"))` is drawn from
the oracle stream. -/

def place_remaining_subwords_until_20 (grid : GameGrid)
    (subwords : List (List Char)) (game_state : GameState)
    (vertical_count horizontal_count : ℕ) (rng : List ℕ) :
    GameGrid × GameState × List (List Char) × ℕ × ℕ × String × List ℕ × ℕ :=
  let x := rng.headD 0
  let rng' := rng.tail
  let direction := if x % 2 = 0 then "vertical" else "horizontal"
  fill_loop config.max_attempts grid subwords game_state vertical_count
    horizontal_count direction rng' 0

/-- One generation attempt of the `while True` loop in `play_game`
(worderly.py lines 444-476), after the main word and (shuffled) sub-word
pool have been picked: seeds the diagonal, places the horizontal main
sub-words, restarts (`none`) when no horizontal word was placed, then runs
the initial vertical placement, the bootstrap loop, and the fill pass.  The
caller accepts the result when at least 21 words are stored.  The
`game_state.subwords` field holds the pool copy recorded by `play_game`. -/

def generate_level (main_word : List Char) (subwords : List (List Char))
    (rng : List ℕ) : Option (GameGrid × GameState) :=
  let grid0 := make_grid
  let gs0 : GameState :=
    { main_word := main_word, subwords := subwords, game_words := [] }
  match main_word_diagonal main_word grid0 gs0 with
  | (grid1, gs1) =>
    match place_main_subwords main_word subwords grid1 gs1 with
    | (subwords2, grid2, gs2) =>
        let hw := horizontal_words gs2
        if hw = [] then none
        else
          let x := rng.headD 0
          let rng2 := rng.tail
          let word1 := hw.getD (x % hw.length) []
          match place_vertical_subwords word1 subwords2 grid2 gs2 0 rng2 with
          | (grid3, gs3, vcount3, subwords3, rng3) =>
            match bootstrap_loop (config.max_attempts / 5) grid3 gs3 subwords3
                vcount3 rng3 0 with
            | (grid4, gs4, subwords4, vcount4, rng4, _) =>
              match place_remaining_subwords_until_20 grid4 subwords4 gs4
                  vcount4 0 rng4 with
              | (grid5, gs5, _, _, _, _, _, _) => some (grid5, gs5)

/-! ### A concrete accepted generation run (used for claims C2 and C7)

The word list consists of the main word `"master"` followed by 64 letter
strings over the letters of `"master"`; every pool entry is a valid
sub-word, so `get_subsets` keeps all of them and `pick_valid_main_word`
accepts `"master"`.  `C2_rng` is a fixed oracle stream under which the
generation attempt places 25 words; `C2_grid` and `C2_state` are the
resulting grid and game state, verified by kernel evaluation below. -/

def C2_wordlist : List (List Char) :=
  ([
    "master", "mas", "mat", "mate", "mats", "mare", "mart", "mares",
    "tame", "tames", "team", "teams", "seam", "sear", "tear", "tears",
    "star", "stare", "stem", "rest", "east", "eats", "arts", "tram",
    "trams", "smart", "steam", "rats", "rate", "rates", "arm", "arms",
    "art", "ate", "ear", "ears", "eat", "era", "eras", "ram",
    "rams", "rat", "sat", "sea", "set", "tar", "tars", "tas",
    "tea", "teas", "ter", "mer", "ser", "ret", "res", "mes",
    "tem", "sam", "sem", "rem", "mar", "mars", "aster", "tamer",
    "tamers"
  ] : List String).map String.toList

def C2_rng : List ℕ :=
  [268423, 158337, 139047, 874017, 330315, 240213, 52194, 46109, 168497, 860071, 343474, 737044, 269798, 462257, 29734, 562863, 682488, 260581, 283460, 84536, 779131, 798326, 634398, 964979, 718007, 672863, 720978, 563786, 301251, 160684, 713298, 848866, 51185, 85048, 876560, 58838, 251142, 336310, 569469, 592065, 152659, 176920, 682836, 405268, 255114, 215859, 913182, 160477, 964816, 889253, 371036, 282568, 41483]

def C2_grid : GameGrid :=
  { rows := 15, columns := 25, grid := ([
    ".........tames...........",
    ".........a...............",
    ".......Mas......t........",
    "................e........",
    "........mAt...sear.......",
    "..............t.m........",
    "........matS..a..........",
    ".........r....rats.......",
    "......rest.maTe..a.r.t...",
    ".........s.......t.a.r...",
    "............marE...t.a...",
    "............a.....seam...",
    "............r..maRt.r....",
    ".........tame.....a.mer..",
    "............stem..r......"
  ] : List String).map String.toList }

def C2_game_words : List (List Char × GameWord) := [
  ("MASTER".toList,
    { word := "MASTER".toList, positions := [((2 : Int), (7 : Int)), ((4 : Int), (9 : Int)), ((6 : Int), (11 : Int)), ((8 : Int), (13 : Int)), ((10 : Int), (15 : Int)), ((12 : Int), (17 : Int))],
      is_main_word := true, direction := "diagonal" }),
  ("mas".toList,
    { word := "mas".toList, positions := [((2 : Int), (7 : Int)), ((2 : Int), (8 : Int)), ((2 : Int), (9 : Int))],
      is_main_word := false, direction := "horizontal" }),
  ("mat".toList,
    { word := "mat".toList, positions := [((4 : Int), (8 : Int)), ((4 : Int), (9 : Int)), ((4 : Int), (10 : Int))],
      is_main_word := false, direction := "horizontal" }),
  ("mats".toList,
    { word := "mats".toList, positions := [((6 : Int), (8 : Int)), ((6 : Int), (9 : Int)), ((6 : Int), (10 : Int)), ((6 : Int), (11 : Int))],
      is_main_word := false, direction := "horizontal" }),
  ("mate".toList,
    { word := "mate".toList, positions := [((8 : Int), (11 : Int)), ((8 : Int), (12 : Int)), ((8 : Int), (13 : Int)), ((8 : Int), (14 : Int))],
      is_main_word := false, direction := "horizontal" }),
  ("mare".toList,
    { word := "mare".toList, positions := [((10 : Int), (12 : Int)), ((10 : Int), (13 : Int)), ((10 : Int), (14 : Int)), ((10 : Int), (15 : Int))],
      is_main_word := false, direction := "horizontal" }),
  ("mart".toList,
    { word := "mart".toList, positions := [((12 : Int), (15 : Int)), ((12 : Int), (16 : Int)), ((12 : Int), (17 : Int)), ((12 : Int), (18 : Int))],
      is_main_word := false, direction := "horizontal" }),
  ("tas".toList,
    { word := "tas".toList, positions := [((0 : Int), (9 : Int)), ((1 : Int), (9 : Int)), ((2 : Int), (9 : Int))],
      is_main_word := false, direction := "vertical" }),
  ("star".toList,
    { word := "star".toList, positions := [((11 : Int), (18 : Int)), ((12 : Int), (18 : Int)), ((13 : Int), (18 : Int)), ((14 : Int), (18 : Int))],
      is_main_word := false, direction := "vertical" }),
  ("mares".toList,
    { word := "mares".toList, positions := [((10 : Int), (12 : Int)), ((11 : Int), (12 : Int)), ((12 : Int), (12 : Int)), ((13 : Int), (12 : Int)), ((14 : Int), (12 : Int))],
      is_main_word := false, direction := "vertical" }),
  ("arts".toList,
    { word := "arts".toList, positions := [((6 : Int), (9 : Int)), ((7 : Int), (9 : Int)), ((8 : Int), (9 : Int)), ((9 : Int), (9 : Int))],
      is_main_word := false, direction := "vertical" }),
  ("seam".toList,
    { word := "seam".toList, positions := [((11 : Int), (18 : Int)), ((11 : Int), (19 : Int)), ((11 : Int), (20 : Int)), ((11 : Int), (21 : Int))],
      is_main_word := false, direction := "horizontal" }),
  ("tame".toList,
    { word := "tame".toList, positions := [((13 : Int), (9 : Int)), ((13 : Int), (10 : Int)), ((13 : Int), (11 : Int)), ((13 : Int), (12 : Int))],
      is_main_word := false, direction := "horizontal" }),
  ("stare".toList,
    { word := "stare".toList, positions := [((4 : Int), (14 : Int)), ((5 : Int), (14 : Int)), ((6 : Int), (14 : Int)), ((7 : Int), (14 : Int)), ((8 : Int), (14 : Int))],
      is_main_word := false, direction := "vertical" }),
  ("rest".toList,
    { word := "rest".toList, positions := [((8 : Int), (6 : Int)), ((8 : Int), (7 : Int)), ((8 : Int), (8 : Int)), ((8 : Int), (9 : Int))],
      is_main_word := false, direction := "horizontal" }),
  ("rats".toList,
    { word := "rats".toList, positions := [((7 : Int), (14 : Int)), ((7 : Int), (15 : Int)), ((7 : Int), (16 : Int)), ((7 : Int), (17 : Int))],
      is_main_word := false, direction := "horizontal" }),
  ("rate".toList,
    { word := "rate".toList, positions := [((8 : Int), (19 : Int)), ((9 : Int), (19 : Int)), ((10 : Int), (19 : Int)), ((11 : Int), (19 : Int))],
      is_main_word := false, direction := "vertical" }),
  ("sear".toList,
    { word := "sear".toList, positions := [((4 : Int), (14 : Int)), ((4 : Int), (15 : Int)), ((4 : Int), (16 : Int)), ((4 : Int), (17 : Int))],
      is_main_word := false, direction := "horizontal" }),
  ("team".toList,
    { word := "team".toList, positions := [((2 : Int), (16 : Int)), ((3 : Int), (16 : Int)), ((4 : Int), (16 : Int)), ((5 : Int), (16 : Int))],
      is_main_word := false, direction := "vertical" }),
  ("stem".toList,
    { word := "stem".toList, positions := [((14 : Int), (12 : Int)), ((14 : Int), (13 : Int)), ((14 : Int), (14 : Int)), ((14 : Int), (15 : Int))],
      is_main_word := false, direction := "horizontal" }),
  ("sat".toList,
    { word := "sat".toList, positions := [((7 : Int), (17 : Int)), ((8 : Int), (17 : Int)), ((9 : Int), (17 : Int))],
      is_main_word := false, direction := "vertical" }),
  ("tames".toList,
    { word := "tames".toList, positions := [((0 : Int), (9 : Int)), ((0 : Int), (10 : Int)), ((0 : Int), (11 : Int)), ((0 : Int), (12 : Int)), ((0 : Int), (13 : Int))],
      is_main_word := false, direction := "horizontal" }),
  ("arm".toList,
    { word := "arm".toList, positions := [((11 : Int), (20 : Int)), ((12 : Int), (20 : Int)), ((13 : Int), (20 : Int))],
      is_main_word := false, direction := "vertical" }),
  ("mer".toList,
    { word := "mer".toList, positions := [((13 : Int), (20 : Int)), ((13 : Int), (21 : Int)), ((13 : Int), (22 : Int))],
      is_main_word := false, direction := "horizontal" }),
  ("tram".toList,
    { word := "tram".toList, positions := [((8 : Int), (21 : Int)), ((9 : Int), (21 : Int)), ((10 : Int), (21 : Int)), ((11 : Int), (21 : Int))],
      is_main_word := false, direction := "vertical" })
]

def C2_subs : List (List Char) :=
  ([
    "mas", "mat", "mate", "mats", "mare", "mart", "mares", "tame",
    "tames", "team", "teams", "seam", "sear", "tear", "tears", "star",
    "stare", "stem", "rest", "east", "eats", "arts", "tram", "trams",
    "smart", "steam", "rats", "rate", "rates", "arm", "arms", "art",
    "ate", "ear", "ears", "eat", "era", "eras", "ram", "rams",
    "rat", "sat", "sea", "set", "tar", "tars", "tas", "tea",
    "teas", "ter", "mer", "ser", "ret", "res", "mes", "tem",
    "sam", "sem", "rem", "mar", "mars", "aster", "tamer", "tamers"
  ] : List String).map String.toList

/-- The game state produced by the concrete run. -/
def C2_state : GameState :=
  { main_word := "master".toList, subwords := C2_subs,
    game_words := C2_game_words }

/-! ### Specification-side predicates for the claims -/

/-- Membership of a cell in the fixed 15×25 grid bounds used by the
generation code. -/
def in_grid_bounds (p : Int × Int) : Prop :=
  0 ≤ p.1 ∧ p.1 < (config.rows : Int) ∧ 0 ≤ p.2 ∧ p.2 < (config.columns : Int)

instance (p : Int × Int) : Decidable (in_grid_bounds p) := by
  unfold in_grid_bounds
  infer_instance

/-- Well-formedness of a grid as built by `make_grid` and preserved by
`set_cell`: 15 rows of 25 characters. -/
def WFGrid (g : GameGrid) : Prop :=
  g.rows = 15 ∧ g.columns = 25 ∧ g.grid.length = 15 ∧
    ∀ row ∈ g.grid, row.length = 25

instance (g : GameGrid) : Decidable (WFGrid g) := by
  unfold WFGrid
  infer_instance

/-- Per-entry invariant of the generation pipeline: the stored `GameWord`
repeats the key as its text, has one position per letter, contains no
sentinel character, and every position is in bounds with the grid holding
the entry letter up to ASCII case. -/
def EntryOK (g : GameGrid) (e : List Char × GameWord) : Prop :=
  e.2.word = e.1 ∧
  e.2.positions.length = e.1.length ∧
  ('.' : Char) ∉ e.1 ∧
  ∀ k, k < e.1.length →
    in_grid_bounds (e.2.positions.getD k (0, 0)) ∧
    Char.toLower (g.get_cell (e.2.positions.getD k (0, 0)).1
        (e.2.positions.getD k (0, 0)).2) =
      Char.toLower (e.1.getD k ' ')

/-- Global invariant of the generation pipeline. -/
def LevelInv (g : GameGrid) (gs : GameState) : Prop :=
  WFGrid g ∧ ∀ e ∈ gs.game_words, EntryOK g e

/-- Claim C2 as stated: every stored word has one position per letter, and
distinct stored words sharing a cell assign it the same character (exact
character equality). -/
def stored_words_exact (gs : GameState) : Prop :=
  (∀ e ∈ gs.game_words, e.2.positions.length = e.2.word.length) ∧
  ∀ e1 ∈ gs.game_words, ∀ e2 ∈ gs.game_words, e1.1 ≠ e2.1 →
    ∀ k1, k1 < e1.2.positions.length → ∀ k2, k2 < e2.2.positions.length →
      e1.2.positions.getD k1 (0, 0) = e2.2.positions.getD k2 (0, 0) →
      e1.2.word.getD k1 ' ' = e2.2.word.getD k2 ' '

/-- Claim C2 amended: as `stored_words_exact`, but letters at a shared cell
agree up to ASCII case (the main word is stored uppercase while crossing
sub-words are stored lowercase). -/
def stored_words_consistent_ci (gs : GameState) : Prop :=
  (∀ e ∈ gs.game_words, e.2.positions.length = e.2.word.length) ∧
  ∀ e1 ∈ gs.game_words, ∀ e2 ∈ gs.game_words, e1.1 ≠ e2.1 →
    ∀ k1, k1 < e1.2.positions.length → ∀ k2, k2 < e2.2.positions.length →
      e1.2.positions.getD k1 (0, 0) = e2.2.positions.getD k2 (0, 0) →
      Char.toLower (e1.2.word.getD k1 ' ') =
        Char.toLower (e2.2.word.getD k2 ' ')

/-- The specification of `ver_can_be_placed` as worded by claim C1: end caps
free beyond both ends, every letter cell in bounds and empty or matching,
and for non-intersection letters the three horizontally-adjacent columns
clear, with the narrower row windows at the first and last letter. -/
def ver_placement_spec (grid : GameGrid) (w : List Char) (row_0 col_0 : Int)
    (loc : ℕ) : Prop :=
  (in_grid_bounds (row_0 - (loc : Int) - 1, col_0) →
    grid.get_cell (row_0 - (loc : Int) - 1) col_0 = '.') ∧
  (in_grid_bounds (row_0 + ((w.length : Int) - (loc : Int)), col_0) →
    grid.get_cell (row_0 + ((w.length : Int) - (loc : Int))) col_0 = '.') ∧
  (∀ i, i < w.length →
    in_grid_bounds (row_0 + (i : Int) - (loc : Int), col_0) ∧
    (grid.get_cell (row_0 + (i : Int) - (loc : Int)) col_0 = '.' ∨
      grid.get_cell (row_0 + (i : Int) - (loc : Int)) col_0 = w.getD i ' ')) ∧
  (∀ i, i < w.length → i ≠ loc →
    ∀ d ∈ ([-1, 0, 1] : List Int),
      (i = 0 →
        ∀ e ∈ ([-1, 0] : List Int),
          in_grid_bounds (row_0 + (i : Int) - (loc : Int) + e, col_0 + d) →
          grid.get_cell (row_0 + (i : Int) - (loc : Int) + e) (col_0 + d) = '.') ∧
      (i ≠ 0 → i = w.length - 1 →
        ∀ e ∈ ([0, 1] : List Int),
          in_grid_bounds (row_0 + (i : Int) - (loc : Int) + e, col_0 + d) →
          grid.get_cell (row_0 + (i : Int) - (loc : Int) + e) (col_0 + d) = '.') ∧
      (i ≠ 0 → i ≠ w.length - 1 →
        in_grid_bounds (row_0 + (i : Int) - (loc : Int), col_0 + d) →
        grid.get_cell (row_0 + (i : Int) - (loc : Int)) (col_0 + d) = '.'))

/-! ### Concrete data for claim C10 -/

/-- A fresh game state for exercising `place_main_subwords` directly. -/
def C10_gs0 : GameState :=
  { main_word := "tttttt".toList, subwords := [], game_words := [] }

/-- `place_main_subwords` applied to a pool containing one 21-letter word:
the word is placed at the first main-word letter, its tail columns running
past the right edge of the grid. -/
def C10_result : List (List Char) × GameGrid × GameState :=
  place_main_subwords "tttttt".toList ["ttttttttttttttttttttt".toList]
    make_grid C10_gs0

/-- The stored `GameWord` for the 21-letter pool word. -/
def C10_entry : GameWord :=
  (dict_get "ttttttttttttttttttttt".toList C10_result.2.2.game_words).getD
    { word := [] }

/-- The stored main word entry of the concrete run. -/
def C2_mainGW : GameWord :=
  { word := "MASTER".toList,
    positions := [((2 : Int), (7 : Int)), (4, 9), (6, 11), (8, 13), (10, 15),
      (12, 17)],
    is_main_word := true, direction := "diagonal" }

/-- The stored entry for the sub-word `"mas"` of the concrete run, crossing
the main word at cell `(2, 7)`. -/
def C2_masGW : GameWord :=
  { word := "mas".toList,
    positions := [((2 : Int), (7 : Int)), (2, 8), (2, 9)],
    is_main_word := false, direction := "horizontal" }

/-! ### Theorems -/

theorem char_toNat_inj {a b : Char} (h : a.toNat = b.toNat) : a = b :=
  Char.ext (UInt32.ext h)

theorem char_toNat_ofNat {n : ℕ} (h : n < 55296) : (Char.ofNat n).toNat = n := by
  rw [Char.ofNat, dif_pos (Or.inl h)]
  rfl

theorem toLower_of_upper {c : Char} (h : 65 ≤ c.toNat ∧ c.toNat ≤ 90) :
    (Char.toLower c).toNat = c.toNat + 32 := by
  rw [Char.toLower, if_pos h, char_toNat_ofNat (by omega)]

theorem toLower_of_not_upper {c : Char} (h : ¬ (65 ≤ c.toNat ∧ c.toNat ≤ 90)) :
    Char.toLower c = c := by
  rw [Char.toLower, if_neg h]

theorem toUpper_of_lower {c : Char} (h : 97 ≤ c.toNat ∧ c.toNat ≤ 122) :
    (Char.toUpper c).toNat = c.toNat - 32 := by
  rw [Char.toUpper, if_pos h, char_toNat_ofNat (by omega)]

theorem toUpper_of_not_lower {c : Char} (h : ¬ (97 ≤ c.toNat ∧ c.toNat ≤ 122)) :
    Char.toUpper c = c := by
  rw [Char.toUpper, if_neg h]

theorem toLower_idem (c : Char) : Char.toLower (Char.toLower c) = Char.toLower c := by
  by_cases h : 65 ≤ c.toNat ∧ c.toNat ≤ 90
  · have h1 := toLower_of_upper h
    apply toLower_of_not_upper
    omega
  · rw [toLower_of_not_upper h, toLower_of_not_upper h]

theorem toLower_toUpper (c : Char) : Char.toLower (Char.toUpper c) = Char.toLower c := by
  by_cases h : 97 ≤ c.toNat ∧ c.toNat ≤ 122
  · have h1 := toUpper_of_lower h
    have h2 : 65 ≤ (Char.toUpper c).toNat ∧ (Char.toUpper c).toNat ≤ 90 := by omega
    have h3 := toLower_of_upper h2
    have h4 : Char.toLower c = c := by
      apply toLower_of_not_upper; omega
    rw [h4]
    apply char_toNat_inj
    omega
  · rw [toUpper_of_not_lower h]

theorem toLower_eq_dot {c : Char} : Char.toLower c = '.' ↔ c = '.' := by
  constructor
  · intro h
    by_cases hu : 65 ≤ c.toNat ∧ c.toNat ≤ 90
    · have h1 := toLower_of_upper hu
      have h2 : ('.' : Char).toNat = 46 := rfl
      rw [h] at h1
      omega
    · rwa [toLower_of_not_upper hu] at h
  · intro h; subst h; rfl

theorem toUpper_eq_dot {c : Char} : Char.toUpper c = '.' ↔ c = '.' := by
  constructor
  · intro h
    by_cases hl : 97 ≤ c.toNat ∧ c.toNat ≤ 122
    · have h1 := toUpper_of_lower hl
      have h2 : ('.' : Char).toNat = 46 := rfl
      rw [h] at h1
      omega
    · rwa [toUpper_of_not_lower hl] at h
  · intro h; subst h; rfl

theorem count_map_toLower_eq_zero {m : List Char} {c : Char}
    (hc : Char.toLower c ≠ c) : (m.map Char.toLower).count c = 0 := by
  rw [List.count_eq_zero]
  intro hmem
  obtain ⟨d, _, hd⟩ := List.mem_map.mp hmem
  apply hc
  calc Char.toLower c = Char.toLower (Char.toLower d) := by rw [hd]
    _ = Char.toLower d := toLower_idem d
    _ = c := hd

theorem valid_subword_false_of_bad_letter {w m : List Char} {c : Char}
    (hmem : c ∈ w) (hc : Char.toLower c ≠ c) : valid_subword w m = false := by
  unfold valid_subword
  by_cases heq : w = m.map Char.toLower
  · rw [if_pos heq]
  · rw [if_neg heq]
    have h0 : (m.map Char.toLower).count c = 0 := count_map_toLower_eq_zero hc
    have h1 : 0 < w.count c := List.count_pos_iff.mpr hmem
    rw [List.all_eq_false]
    refine ⟨c, hmem, ?_⟩
    simp only [h0, decide_eq_true_eq]
    omega

theorem getD_map_toLower (l : List Char) (i : ℕ) (hi : i < l.length) :
    (l.map Char.toLower).getD i ' ' = Char.toLower (l.getD i ' ') := by
  induction l generalizing i with
  | nil => simp at hi
  | cons a l ih =>
      cases i with
      | zero => rfl
      | succ j =>
          simp only [List.map_cons, List.getD_cons_succ]
          exact ih j (by simpa using hi)

theorem getD_mem_of_lt (l : List Char) (i : ℕ) (hi : i < l.length)
    (d : Char) : l.getD i d ∈ l := by
  induction l generalizing i with
  | nil => simp at hi
  | cons a l ih =>
      cases i with
      | zero => simp
      | succ j =>
          simp only [List.getD_cons_succ]
          exact List.mem_cons_of_mem a (ih j (by simpa using hi))

theorem ne_lists_exists_getD {w s : List Char} (hlen : w.length = s.length)
    (hne : w ≠ s) : ∃ i, i < w.length ∧ w.getD i ' ' ≠ s.getD i ' ' := by
  induction w generalizing s with
  | nil =>
      cases s with
      | nil => exact absurd rfl hne
      | cons b s => simp at hlen
  | cons a w ih =>
      cases s with
      | nil => simp at hlen
      | cons b s =>
          by_cases hab : a = b
          · subst hab
            have hne' : w ≠ s := fun hws => hne (by rw [hws])
            obtain ⟨i, hi, hd⟩ := ih (by simpa using hlen) hne'
            exact ⟨i + 1, by simpa using hi, by simpa using hd⟩
          · exact ⟨0, by simp, by simpa using hab⟩

/-- Claim C4: for all words `w` and `m`, `valid_subword(w, m)` returns false
whenever `w` equals `m` case-insensitively (`w.lower() == m.lower()`),
regardless of the letter multiset of `w`. -/
theorem C4_valid_subword_false_of_lower_eq (w m : List Char)
    (h : w.map Char.toLower = m.map Char.toLower) :
    valid_subword w m = false := by
  by_cases heq : w = m.map Char.toLower
  · unfold valid_subword
    rw [if_pos heq]
  · have hlen : w.length = (m.map Char.toLower).length := by
      have := congrArg List.length h
      simpa using this
    obtain ⟨i, hi, hne⟩ := ne_lists_exists_getD hlen heq
    set c := w.getD i ' ' with hcdef
    have hlow : Char.toLower c = (m.map Char.toLower).getD i ' ' := by
      rw [← h, hcdef]
      exact (getD_map_toLower w i hi).symm
    have hfix : Char.toLower c ≠ c := by
      intro hcontra
      exact hne (by rw [← hlow, hcontra])
    exact valid_subword_false_of_bad_letter (getD_mem_of_lt w i hi ' ') hfix

theorem C4_witness : ("Master".toList.map Char.toLower =
    "MASTER".toList.map Char.toLower) ∧
    valid_subword "Master".toList "MASTER".toList = false := by
  refine ⟨by decide, C4_valid_subword_false_of_lower_eq _ _ (by decide)⟩

/-- Claim C5 fails on the code as stated: letter counts are compared against
`m.lower()`, not `m`.  With `w = "mas"` and `m = "MASTER"`, the function
accepts `w` although `'m'` occurs once in `w` and zero times in `m`. -/
theorem C5_counterexample :
    valid_subword "mas".toList "MASTER".toList = true ∧
    ¬ ("mas".toList.count 'm' ≤ "MASTER".toList.count 'm') := by
  refine ⟨by decide, by decide⟩

/-- Claim C5 (amended): if `valid_subword(w, m)` returns true, then every
letter occurring in `w` occurs in `w` at most as often as in `m.lower()`. -/
theorem C5_valid_subword_counts (w m : List Char)
    (h : valid_subword w m = true) :
    ∀ c ∈ w, w.count c ≤ (m.map Char.toLower).count c := by
  intro c hc
  unfold valid_subword at h
  by_cases heq : w = m.map Char.toLower
  · rw [if_pos heq] at h
    exact absurd h (by simp)
  · rw [if_neg heq] at h
    have := List.all_eq_true.mp h c hc
    simpa using this

theorem C5_witness : valid_subword "mas".toList "MASTER".toList = true ∧
    ('m' ∈ "mas".toList) ∧
    "mas".toList.count 'm' ≤ ("MASTER".toList.map Char.toLower).count 'm' := by
  refine ⟨by decide, by decide,
    C5_valid_subword_counts _ _ (by decide) 'm' (by decide)⟩

/-- Claim C9: a word containing any character `c` with `c != c.lower()` is
never accepted as a sub-word of any main word, since `c` cannot occur in
`main_word.lower()`. -/
theorem C9_valid_subword_false_of_upper (w m : List Char) (c : Char)
    (hmem : c ∈ w) (hc : Char.toLower c ≠ c) : valid_subword w m = false :=
  valid_subword_false_of_bad_letter hmem hc

theorem C9_witness : ('A' ∈ "Abc".toList) ∧ Char.toLower 'A' ≠ 'A' ∧
    valid_subword "Abc".toList "abcdef".toList = false := by
  refine ⟨by decide, by decide,
    C9_valid_subword_false_of_upper _ _ 'A' (by decide) (by decide)⟩

/-- Claim C6: on a 15×25 `GameGrid`, `get_cell` returns `'.'` and `set_cell`
returns the grid unchanged for any integer coordinates outside
`[0,15) × [0,25)`; both operations are total. -/
theorem C6_out_of_bounds (g : GameGrid) (r c : Int) (ch : Char)
    (hr : g.rows = 15) (hc : g.columns = 25)
    (h : r < 0 ∨ 15 ≤ r ∨ c < 0 ∨ 25 ≤ c) :
    g.get_cell r c = '.' ∧ g.set_cell r c ch = g := by
  have hcond : ¬ (0 ≤ r ∧ r < (g.rows : Int) ∧ 0 ≤ c ∧ c < (g.columns : Int)) := by
    rw [hr, hc]
    omega
  constructor
  · unfold GameGrid.get_cell
    rw [if_neg hcond]
  · unfold GameGrid.set_cell
    rw [if_neg hcond]

theorem C6_witness : make_grid.get_cell (-1) 3 = '.' ∧
    make_grid.set_cell 15 0 'x' = make_grid :=
  ⟨(C6_out_of_bounds make_grid (-1) 3 'x' rfl rfl (Or.inl (by decide))).1,
    (C6_out_of_bounds make_grid 15 0 'x' rfl rfl (Or.inr (Or.inl (by decide)))).2⟩

theorem entry_ge_of_not_gt {a b : LeaderboardEntry} (h : ¬ entry_gt a b = true) :
    entry_ge b a := by
  unfold entry_gt at h
  unfold entry_ge
  rw [decide_eq_true_eq] at h
  push_neg at h
  omega

theorem entry_ge_of_gt {a b : LeaderboardEntry} (h : entry_gt a b = true) :
    entry_ge a b := by
  unfold entry_gt at h
  unfold entry_ge
  rw [decide_eq_true_eq] at h
  omega

theorem entry_ge_trans {a b c : LeaderboardEntry} (h1 : entry_ge a b)
    (h2 : entry_ge b c) : entry_ge a c := by
  unfold entry_ge at h1 h2 ⊢
  omega

theorem mem_insert_desc {y e : LeaderboardEntry} {l : List LeaderboardEntry} :
    y ∈ insert_desc e l ↔ y = e ∨ y ∈ l := by
  induction l with
  | nil => simp [insert_desc]
  | cons x rest ih =>
      unfold insert_desc
      by_cases hx : entry_gt x e
      · rw [if_pos hx]
        simp only [List.mem_cons, ih]
        tauto
      · rw [if_neg hx]
        simp only [List.mem_cons]

theorem pairwise_insert_desc {e : LeaderboardEntry} {l : List LeaderboardEntry}
    (h : l.Pairwise entry_ge) : (insert_desc e l).Pairwise entry_ge := by
  induction l with
  | nil => simp [insert_desc]
  | cons x rest ih =>
      unfold insert_desc
      by_cases hx : entry_gt x e
      · rw [if_pos hx]
        refine List.Pairwise.cons ?_ (ih (List.Pairwise.sublist (by simp) h))
        intro y hy
        rcases mem_insert_desc.mp hy with hye | hyr
        · subst hye
          exact entry_ge_of_gt hx
        · exact (List.pairwise_cons.mp h).1 y hyr
      · rw [if_neg hx]
        refine List.Pairwise.cons ?_ h
        intro y hy
        rcases List.mem_cons.mp hy with hyx | hyr
        · subst hyx
          exact entry_ge_of_not_gt hx
        · exact entry_ge_trans (entry_ge_of_not_gt hx)
            ((List.pairwise_cons.mp h).1 y hyr)

theorem pairwise_sort_entries (l : List LeaderboardEntry) :
    (sort_entries l).Pairwise entry_ge := by
  induction l with
  | nil => exact List.Pairwise.nil
  | cons x rest ih => exact pairwise_insert_desc ih

/-- Claim C8: after every `add_entry` the leaderboard entries are sorted
descending by the lexicographic `(streak_length, total_points)` key, so any
subsequent `get_top_entries(n)` is non-increasing in that key; the same
sorted order is established on every load. -/
theorem C8_leaderboard_sorted (lb : Leaderboard) (name : List Char)
    (streak points : Int) (ts : List Char) (n : ℕ)
    (decoded : List LeaderboardEntry) :
    ((lb.add_entry name streak points ts).entries).Pairwise entry_ge ∧
    ((lb.add_entry name streak points ts).get_top_entries n).Pairwise entry_ge ∧
    (load_leaderboard decoded).Pairwise entry_ge := by
  have h1 : ((lb.add_entry name streak points ts).entries).Pairwise entry_ge :=
    pairwise_sort_entries _
  refine ⟨h1, ?_, pairwise_sort_entries decoded⟩
  exact List.Pairwise.sublist (List.take_sublist n _) h1

set_option maxRecDepth 1000000 in
theorem C2_run_eq :
    generate_level "master".toList C2_subs C2_rng = some (C2_grid, C2_state) := by
  decide

/-! ### List and grid access helpers -/

theorem getD_mem_lt {α : Type} {l : List α} {i : ℕ} (hi : i < l.length) (d : α) :
    l.getD i d ∈ l := by
  induction l generalizing i with
  | nil => simp at hi
  | cons a rest ih =>
      cases i with
      | zero => simp
      | succ j =>
          simp only [List.getD_cons_succ]
          exact List.mem_cons_of_mem a (ih (by simpa using hi))

theorem set_getD {α : Type} (l : List α) (i : ℕ) (x : α) (j : ℕ) (d : α) :
    (l.set i x).getD j d = if j = i ∧ i < l.length then x else l.getD j d := by
  induction l generalizing i j with
  | nil => simp
  | cons a rest ih =>
      cases i with
      | zero =>
          cases j with
          | zero => simp
          | succ j' => simp
      | succ i' =>
          cases j with
          | zero => simp
          | succ j' =>
              simp only [List.set_cons_succ, List.getD_cons_succ, ih,
                List.length_cons]
              by_cases hji : j' = i'
              · subst hji
                by_cases hlt : j' < rest.length
                · rw [if_pos ⟨rfl, hlt⟩, if_pos ⟨rfl, by omega⟩]
                · rw [if_neg (by rintro ⟨h1, h2⟩; omega),
                    if_neg (by rintro ⟨h1, h2⟩; omega)]
              · rw [if_neg (by rintro ⟨h1, h2⟩; omega),
                  if_neg (by rintro ⟨h1, h2⟩; omega)]

theorem splice_length {row : List Char} {c : ℕ} (hc : c < row.length) (ch : Char) :
    (row.take c ++ [ch] ++ row.drop (c + 1)).length = row.length := by
  simp only [List.length_append, List.length_take, List.length_drop,
    List.length_cons, List.length_nil]
  omega

theorem splice_getD {row : List Char} {c : ℕ} (hc : c < row.length) (ch : Char)
    (j : ℕ) (d : Char) :
    (row.take c ++ [ch] ++ row.drop (c + 1)).getD j d =
      if j = c then ch else row.getD j d := by
  induction row generalizing c j with
  | nil => simp at hc
  | cons a rest ih =>
      cases c with
      | zero =>
          cases j with
          | zero => simp
          | succ j' => simp
      | succ c' =>
          cases j with
          | zero => simp
          | succ j' =>
              have hc' : c' < rest.length := by simpa using hc
              simp only [List.take_succ_cons, List.drop_succ_cons,
                List.cons_append, List.getD_cons_succ]
              rw [ih hc']
              by_cases hj : j' = c'
              · rw [if_pos hj, if_pos (by omega)]
              · rw [if_neg hj, if_neg (by omega)]

theorem config_rows_eq : (config.rows : Int) = 15 := rfl

theorem config_columns_eq : (config.columns : Int) = 25 := rfl

theorem WFGrid_set_cell {g : GameGrid} (h : WFGrid g) (r c : Int) (ch : Char) :
    WFGrid (g.set_cell r c ch) := by
  obtain ⟨h15, h25, hlen, hrows⟩ := h
  unfold GameGrid.set_cell
  by_cases hg : 0 ≤ r ∧ r < (g.rows : Int) ∧ 0 ≤ c ∧ c < (g.columns : Int)
  · rw [if_pos hg]
    refine ⟨h15, h25, by simpa using hlen, ?_⟩
    intro row hrow
    rcases List.mem_or_eq_of_mem_set hrow with hmem | heq
    · exact hrows row hmem
    · subst heq
      have hrlen : (g.grid.getD r.toNat []).length = 25 := by
        apply hrows
        apply getD_mem_lt
        rw [hlen]
        rw [h15] at hg
        omega
      have hc25 : c.toNat < (g.grid.getD r.toNat []).length := by
        rw [hrlen]
        rw [h25] at hg
        omega
      rw [splice_length hc25]
      exact hrlen
  · rw [if_neg hg]
    exact ⟨h15, h25, hlen, hrows⟩

theorem get_cell_set_cell {g : GameGrid} (hwf : WFGrid g) (r c : Int) (ch : Char)
    (r' c' : Int) :
    (g.set_cell r c ch).get_cell r' c' =
      if r' = r ∧ c' = c ∧ in_grid_bounds (r, c) then ch
      else g.get_cell r' c' := by
  obtain ⟨h15, h25, hlen, hrows⟩ := hwf
  have hb : in_grid_bounds (r, c) ↔
      (0 ≤ r ∧ r < (g.rows : Int) ∧ 0 ≤ c ∧ c < (g.columns : Int)) := by
    rw [h15, h25]
    exact Iff.rfl
  unfold GameGrid.set_cell
  by_cases hg : 0 ≤ r ∧ r < (g.rows : Int) ∧ 0 ≤ c ∧ c < (g.columns : Int)
  · rw [if_pos hg]
    have hrlen : (g.grid.getD r.toNat []).length = 25 := by
      apply hrows
      apply getD_mem_lt
      rw [hlen]
      rw [h15] at hg
      omega
    have hrtn : r.toNat < g.grid.length := by
      rw [hlen]
      rw [h15] at hg
      omega
    have hctn : c.toNat < (g.grid.getD r.toNat []).length := by
      rw [hrlen]
      rw [h25] at hg
      omega
    unfold GameGrid.get_cell
    by_cases hg' : 0 ≤ r' ∧ r' < (g.rows : Int) ∧ 0 ≤ c' ∧ c' < (g.columns : Int)
    · rw [if_pos (by simpa using hg'), if_pos hg']
      rw [set_getD]
      by_cases hrr : r'.toNat = r.toNat
      · have hreq : r' = r := by omega
        rw [if_pos ⟨hrr, hrtn⟩, hrr]
        rw [splice_getD hctn]
        by_cases hcc : c'.toNat = c.toNat
        · have hceq : c' = c := by omega
          rw [if_pos hcc, if_pos ⟨hreq, hceq, hb.mpr hg⟩]
        · have hcne : ¬ (r' = r ∧ c' = c ∧ in_grid_bounds (r, c)) := by
            intro ⟨_, hc2, _⟩
            exact hcc (by rw [hc2])
          rw [if_neg hcc, if_neg hcne]
      · have hrne : ¬ (r' = r ∧ c' = c ∧ in_grid_bounds (r, c)) := by
          intro ⟨hr2, _, _⟩
          exact hrr (by rw [hr2])
        rw [if_neg (by tauto), if_neg hrne]
    · rw [if_neg (by simpa using hg'), if_neg hg']
      have : ¬ (r' = r ∧ c' = c ∧ in_grid_bounds (r, c)) := by
        intro ⟨hr2, hc2, _⟩
        subst hr2; subst hc2
        exact hg' hg
      rw [if_neg this]
  · rw [if_neg hg]
    have : ¬ (r' = r ∧ c' = c ∧ in_grid_bounds (r, c)) := by
      intro ⟨_, _, hbb⟩
      exact hg (hb.mp hbb)
    rw [if_neg this]

theorem get_cell_not_dot_imp_bounds {g : GameGrid} {r c : Int}
    (h : g.get_cell r c ≠ '.') :
    0 ≤ r ∧ r < (g.rows : Int) ∧ 0 ≤ c ∧ c < (g.columns : Int) := by
  by_contra hb
  unfold GameGrid.get_cell at h
  rw [if_neg hb] at h
  exact h rfl

/-! ### Dictionary, scan and index helpers -/

theorem dict_get_mem {k : List Char} {l : List (List Char × GameWord)}
    {v : GameWord} (h : dict_get k l = some v) : (k, v) ∈ l := by
  induction l with
  | nil => simp [dict_get] at h
  | cons e rest ih =>
      unfold dict_get at h
      by_cases he : e.1 = k
      · rw [if_pos he] at h
        cases h
        have he2 : e = (k, e.2) := by
          cases e
          simp_all
        rw [← he2]
        exact List.mem_cons_self _ _
      · rw [if_neg he] at h
        exact List.mem_cons_of_mem _ (ih h)

theorem mem_dict_insert {e : List Char × GameWord} {k : List Char}
    {v : GameWord} {l : List (List Char × GameWord)}
    (h : e ∈ dict_insert k v l) : e = (k, v) ∨ e ∈ l := by
  induction l with
  | nil => simpa [dict_insert] using h
  | cons e' rest ih =>
      unfold dict_insert at h
      by_cases he : e'.1 = k
      · rw [if_pos he] at h
        rcases List.mem_cons.mp h with h1 | h1
        · exact Or.inl h1
        · exact Or.inr (List.mem_cons_of_mem _ h1)
      · rw [if_neg he] at h
        rcases List.mem_cons.mp h with h1 | h1
        · exact Or.inr (List.mem_cons.mpr (Or.inl h1))
        · rcases ih h1 with h2 | h2
          · exact Or.inl h2
          · exact Or.inr (List.mem_cons_of_mem _ h2)

theorem dict_get_insert_self (k : List Char) (v : GameWord)
    (l : List (List Char × GameWord)) :
    dict_get k (dict_insert k v l) = some v := by
  induction l with
  | nil => simp [dict_insert, dict_get]
  | cons e rest ih =>
      unfold dict_insert
      by_cases he : e.1 = k
      · rw [if_pos he]
        unfold dict_get
        rw [if_pos rfl]
      · rw [if_neg he]
        unfold dict_get
        rw [if_neg he]
        exact ih

theorem extract_first_eq {p : List Char → Bool} {l pre post : List (List Char)}
    {x : List Char} (h : extract_first p l = some (pre, x, post)) :
    l = pre ++ x :: post ∧ p x = true := by
  induction l generalizing pre with
  | nil => simp [extract_first] at h
  | cons w rest ih =>
      unfold extract_first at h
      by_cases hw : p w
      · rw [if_pos hw] at h
        cases h
        exact ⟨rfl, hw⟩
      · rw [if_neg hw] at h
        cases hrec : extract_first p rest with
        | none => rw [hrec] at h; cases h
        | some val =>
            obtain ⟨pre', x', post'⟩ := val
            rw [hrec] at h
            cases h
            obtain ⟨h1, h2⟩ := ih hrec
            exact ⟨by rw [h1]; rfl, h2⟩

theorem py_index_lt {c : Char} {w : List Char} (h : c ∈ w) :
    py_index c w < w.length := by
  induction w with
  | nil => simp at h
  | cons a rest ih =>
      unfold py_index
      by_cases ha : a = c
      · rw [if_pos ha]
        simp
      · rw [if_neg ha]
        have : c ∈ rest := by
          rcases List.mem_cons.mp h with h1 | h1
          · exact absurd h1.symm ha
          · exact h1
        simpa using ih this

theorem getD_py_index {c : Char} {w : List Char} (h : c ∈ w) :
    w.getD (py_index c w) ' ' = c := by
  induction w with
  | nil => simp at h
  | cons a rest ih =>
      unfold py_index
      by_cases ha : a = c
      · rw [if_pos ha]
        simpa using ha
      · rw [if_neg ha]
        have hmem : c ∈ rest := by
          rcases List.mem_cons.mp h with h1 | h1
          · exact absurd h1.symm ha
          · exact h1
        simpa using ih hmem

/-! ### Write-loop characterizations -/

theorem getD_map_range {α : Type} (f : ℕ → α) {n k : ℕ} (hk : k < n) (d : α) :
    ((List.range n).map f).getD k d = f k := by
  rw [List.getD_eq_getElem _ _ (by simpa using hk)]
  simp

theorem cast_add_succ (j t : ℕ) :
    ((j + (t + 1) : ℕ) : Int) = ((j + 1 + t : ℕ) : Int) := by
  push_cast
  ring

theorem ver_write_loop_spec (row_0 col_0 : Int) (loc : ℕ) (w : List Char) :
    ∀ (j : ℕ) (g : GameGrid), WFGrid g →
      WFGrid (ver_write_loop row_0 col_0 loc j w g).1 ∧
      (ver_write_loop row_0 col_0 loc j w g).2.length = w.length ∧
      (∀ t, t < w.length →
        (ver_write_loop row_0 col_0 loc j w g).2.getD t (0, 0) =
          (row_0 + (j : Int) + (t : Int) - (loc : Int), col_0)) ∧
      (∀ r c : Int,
        (∀ t, t < w.length → j + t = loc ∨
          r ≠ row_0 + (j : Int) + (t : Int) - (loc : Int) ∨ c ≠ col_0) →
        (ver_write_loop row_0 col_0 loc j w g).1.get_cell r c = g.get_cell r c) ∧
      (∀ t, t < w.length → j + t ≠ loc →
        in_grid_bounds (row_0 + (j : Int) + (t : Int) - (loc : Int), col_0) →
        (ver_write_loop row_0 col_0 loc j w g).1.get_cell
          (row_0 + (j : Int) + (t : Int) - (loc : Int)) col_0 = w.getD t ' ') := by
  induction w with
  | nil =>
      intro j g hwf
      refine ⟨hwf, rfl, ?_, ?_, ?_⟩
      · intro t ht
        simp at ht
      · intro r c _
        rfl
      · intro t ht
        simp at ht
  | cons ch rest ih =>
      intro j g hwf
      simp only [ver_write_loop]
      set grid' : GameGrid :=
        (if (j : Int) - (loc : Int) = 0 then g
         else if 0 ≤ row_0 + ((j : Int) - (loc : Int)) ∧
             row_0 + ((j : Int) - (loc : Int)) < (config.rows : Int) then
           g.set_cell (row_0 + ((j : Int) - (loc : Int))) col_0 ch
         else g) with hgrid'
      have hwf' : WFGrid grid' := by
        rw [hgrid']
        split
        · exact hwf
        · split
          · exact WFGrid_set_cell hwf _ _ _
          · exact hwf
      have hgetg' : ∀ r c : Int,
          (j = loc ∨ r ≠ row_0 + (j : Int) - (loc : Int) ∨ c ≠ col_0) →
          grid'.get_cell r c = g.get_cell r c := by
        intro r c hcond
        rw [hgrid']
        split
        · rfl
        · rename_i hne
          split
          · rw [get_cell_set_cell hwf]
            rw [if_neg]
            rintro ⟨hr, hc, _⟩
            rcases hcond with h1 | h1 | h1
            · exact hne (by omega)
            · exact h1 (by rw [hr]; ring)
            · exact h1 hc
          · rfl
      obtain ⟨ihwf, ihlen, ihpos, ihun, ihwr⟩ := ih (j + 1) grid' hwf'
      refine ⟨ihwf, by simpa using ihlen, ?_, ?_, ?_⟩
      · intro t ht
        cases t with
        | zero =>
            show ((row_0 + ((j : Int) - (loc : Int)), col_0)) = _
            have : row_0 + ((j : Int) - (loc : Int)) =
                row_0 + (j : Int) + ((0 : ℕ) : Int) - (loc : Int) := by
              push_cast
              ring
            rw [this]
        | succ t' =>
            have ht' : t' < rest.length := by simpa using ht
            show (ver_write_loop row_0 col_0 loc (j + 1) rest grid').2.getD t' (0, 0) = _
            rw [ihpos t' ht']
            have : row_0 + ((j + 1 : ℕ) : Int) + (t' : Int) - (loc : Int) =
                row_0 + (j : Int) + ((t' + 1 : ℕ) : Int) - (loc : Int) := by
              push_cast
              ring
            rw [this]
      · intro r c hcond
        have hstep : (ver_write_loop row_0 col_0 loc (j + 1) rest grid').1.get_cell r c =
            grid'.get_cell r c := by
          apply ihun
          intro t ht
          have := hcond (t + 1) (by simpa using ht)
          rcases this with h1 | h1 | h1
          · exact Or.inl (by omega)
          · refine Or.inr (Or.inl ?_)
            intro hcontra
            apply h1
            rw [hcontra]
            push_cast
            ring
          · exact Or.inr (Or.inr h1)
        rw [hstep]
        apply hgetg'
        have := hcond 0 (by simp)
        rcases this with h1 | h1 | h1
        · exact Or.inl (by omega)
        · refine Or.inr (Or.inl ?_)
          intro hcontra
          apply h1
          rw [hcontra]
          push_cast
          ring
        · exact Or.inr (Or.inr h1)
      · intro t ht hne hbounds
        cases t with
        | zero =>
            have hcell : row_0 + (j : Int) + ((0 : ℕ) : Int) - (loc : Int) =
                row_0 + ((j : Int) - (loc : Int)) := by
              push_cast
              ring
            rw [hcell] at hbounds ⊢
            have hjne : j ≠ loc := by simpa using hne
            have hstep : (ver_write_loop row_0 col_0 loc (j + 1) rest grid').1.get_cell
                (row_0 + ((j : Int) - (loc : Int))) col_0 =
                grid'.get_cell (row_0 + ((j : Int) - (loc : Int))) col_0 := by
              apply ihun
              intro t' ht'
              refine Or.inr (Or.inl ?_)
              intro hcontra
              have : (j : Int) - (loc : Int) =
                  (j : Int) + 1 + (t' : Int) - (loc : Int) := by omega
              omega
            rw [hstep, hgrid']
            have hoffne : ¬ ((j : Int) - (loc : Int) = 0) := by omega
            rw [if_neg hoffne]
            obtain ⟨hb1, hb2, hb3, hb4⟩ := hbounds
            rw [if_pos ⟨hb1, hb2⟩]
            rw [get_cell_set_cell hwf]
            rw [if_pos ⟨rfl, rfl, hb1, hb2, hb3, hb4⟩]
            rfl
        | succ t' =>
            have ht' : t' < rest.length := by simpa using ht
            have hcell : row_0 + (j : Int) + ((t' + 1 : ℕ) : Int) - (loc : Int) =
                row_0 + ((j + 1 : ℕ) : Int) + (t' : Int) - (loc : Int) := by
              push_cast
              ring
            rw [hcell] at hbounds ⊢
            have hne' : (j + 1) + t' ≠ loc := by omega
            exact ihwr t' ht' hne' hbounds

theorem hor_write_loop_spec (row_0 col_0 : Int) (loc : ℕ) (w : List Char) :
    ∀ (j : ℕ) (g : GameGrid), WFGrid g →
      WFGrid (hor_write_loop row_0 col_0 loc j w g).1 ∧
      (hor_write_loop row_0 col_0 loc j w g).2.length = w.length ∧
      (∀ t, t < w.length →
        (hor_write_loop row_0 col_0 loc j w g).2.getD t (0, 0) =
          (row_0, col_0 + (j : Int) + (t : Int) - (loc : Int))) ∧
      (∀ r c : Int,
        (∀ t, t < w.length → j + t = loc ∨ r ≠ row_0 ∨
          c ≠ col_0 + (j : Int) + (t : Int) - (loc : Int)) →
        (hor_write_loop row_0 col_0 loc j w g).1.get_cell r c = g.get_cell r c) ∧
      (∀ t, t < w.length → j + t ≠ loc →
        in_grid_bounds (row_0, col_0 + (j : Int) + (t : Int) - (loc : Int)) →
        (hor_write_loop row_0 col_0 loc j w g).1.get_cell row_0
          (col_0 + (j : Int) + (t : Int) - (loc : Int)) = w.getD t ' ') := by
  induction w with
  | nil =>
      intro j g hwf
      refine ⟨hwf, rfl, ?_, ?_, ?_⟩
      · intro t ht
        simp at ht
      · intro r c _
        rfl
      · intro t ht
        simp at ht
  | cons ch rest ih =>
      intro j g hwf
      simp only [hor_write_loop]
      set grid' : GameGrid :=
        (if (j : Int) - (loc : Int) = 0 then g
         else if 0 ≤ col_0 + ((j : Int) - (loc : Int)) ∧
             col_0 + ((j : Int) - (loc : Int)) < (config.columns : Int) then
           g.set_cell row_0 (col_0 + ((j : Int) - (loc : Int))) ch
         else g) with hgrid'
      have hwf' : WFGrid grid' := by
        rw [hgrid']
        split
        · exact hwf
        · split
          · exact WFGrid_set_cell hwf _ _ _
          · exact hwf
      have hgetg' : ∀ r c : Int,
          (j = loc ∨ r ≠ row_0 ∨ c ≠ col_0 + (j : Int) - (loc : Int)) →
          grid'.get_cell r c = g.get_cell r c := by
        intro r c hcond
        rw [hgrid']
        split
        · rfl
        · rename_i hne
          split
          · rw [get_cell_set_cell hwf]
            rw [if_neg]
            rintro ⟨hr, hc, _⟩
            rcases hcond with h1 | h1 | h1
            · exact hne (by omega)
            · exact h1 hr
            · exact h1 (by rw [hc]; ring)
          · rfl
      obtain ⟨ihwf, ihlen, ihpos, ihun, ihwr⟩ := ih (j + 1) grid' hwf'
      refine ⟨ihwf, by simpa using ihlen, ?_, ?_, ?_⟩
      · intro t ht
        cases t with
        | zero =>
            show ((row_0, col_0 + ((j : Int) - (loc : Int)))) = _
            have : col_0 + ((j : Int) - (loc : Int)) =
                col_0 + (j : Int) + ((0 : ℕ) : Int) - (loc : Int) := by
              push_cast
              ring
            rw [this]
        | succ t' =>
            have ht' : t' < rest.length := by simpa using ht
            show (hor_write_loop row_0 col_0 loc (j + 1) rest grid').2.getD t' (0, 0) = _
            rw [ihpos t' ht']
            have : col_0 + ((j + 1 : ℕ) : Int) + (t' : Int) - (loc : Int) =
                col_0 + (j : Int) + ((t' + 1 : ℕ) : Int) - (loc : Int) := by
              push_cast
              ring
            rw [this]
      · intro r c hcond
        have hstep : (hor_write_loop row_0 col_0 loc (j + 1) rest grid').1.get_cell r c =
            grid'.get_cell r c := by
          apply ihun
          intro t ht
          have := hcond (t + 1) (by simpa using ht)
          rcases this with h1 | h1 | h1
          · exact Or.inl (by omega)
          · exact Or.inr (Or.inl h1)
          · refine Or.inr (Or.inr ?_)
            intro hcontra
            apply h1
            rw [hcontra]
            push_cast
            ring
        rw [hstep]
        apply hgetg'
        have := hcond 0 (by simp)
        rcases this with h1 | h1 | h1
        · exact Or.inl (by omega)
        · exact Or.inr (Or.inl h1)
        · refine Or.inr (Or.inr ?_)
          intro hcontra
          apply h1
          rw [hcontra]
          push_cast
          ring
      · intro t ht hne hbounds
        cases t with
        | zero =>
            have hcell : col_0 + (j : Int) + ((0 : ℕ) : Int) - (loc : Int) =
                col_0 + ((j : Int) - (loc : Int)) := by
              push_cast
              ring
            rw [hcell] at hbounds ⊢
            have hjne : j ≠ loc := by simpa using hne
            have hstep : (hor_write_loop row_0 col_0 loc (j + 1) rest grid').1.get_cell
                row_0 (col_0 + ((j : Int) - (loc : Int))) =
                grid'.get_cell row_0 (col_0 + ((j : Int) - (loc : Int))) := by
              apply ihun
              intro t' ht'
              refine Or.inr (Or.inr ?_)
              intro hcontra
              omega
            rw [hstep, hgrid']
            have hoffne : ¬ ((j : Int) - (loc : Int) = 0) := by omega
            rw [if_neg hoffne]
            obtain ⟨hb1, hb2, hb3, hb4⟩ := hbounds
            rw [if_pos ⟨hb3, hb4⟩]
            rw [get_cell_set_cell hwf]
            rw [if_pos ⟨rfl, rfl, hb1, hb2, hb3, hb4⟩]
            rfl
        | succ t' =>
            have ht' : t' < rest.length := by simpa using ht
            have hcell : col_0 + (j : Int) + ((t' + 1 : ℕ) : Int) - (loc : Int) =
                col_0 + ((j + 1 : ℕ) : Int) + (t' : Int) - (loc : Int) := by
              push_cast
              ring
            rw [hcell] at hbounds ⊢
            have hne' : (j + 1) + t' ≠ loc := by omega
            exact ihwr t' ht' hne' hbounds

theorem hor_main_write_loop_spec (row_0 col_0 : Int) (loc : ℕ) (w : List Char) :
    ∀ (j : ℕ) (g : GameGrid), WFGrid g →
      WFGrid (hor_main_write_loop row_0 col_0 loc j w g).1 ∧
      (hor_main_write_loop row_0 col_0 loc j w g).2.length = w.length ∧
      (∀ t, t < w.length →
        (hor_main_write_loop row_0 col_0 loc j w g).2.getD t (0, 0) =
          (row_0, col_0 + (j : Int) + (t : Int) - (loc : Int))) ∧
      (∀ r c : Int,
        (∀ t, t < w.length → r ≠ row_0 ∨
          c ≠ col_0 + (j : Int) + (t : Int) - (loc : Int)) →
        (hor_main_write_loop row_0 col_0 loc j w g).1.get_cell r c =
          g.get_cell r c) ∧
      (∀ t, t < w.length → j + t ≠ loc →
        in_grid_bounds (row_0, col_0 + (j : Int) + (t : Int) - (loc : Int)) →
        (hor_main_write_loop row_0 col_0 loc j w g).1.get_cell row_0
          (col_0 + (j : Int) + (t : Int) - (loc : Int)) = w.getD t ' ') ∧
      (∀ t, t < w.length → j + t = loc →
        in_grid_bounds (row_0, col_0 + (j : Int) + (t : Int) - (loc : Int)) →
        (hor_main_write_loop row_0 col_0 loc j w g).1.get_cell row_0
          (col_0 + (j : Int) + (t : Int) - (loc : Int)) =
          Char.toUpper (w.getD t ' ')) := by
  induction w with
  | nil =>
      intro j g hwf
      refine ⟨hwf, rfl, ?_, ?_, ?_, ?_⟩
      · intro t ht
        simp at ht
      · intro r c _
        rfl
      · intro t ht
        simp at ht
      · intro t ht
        simp at ht
  | cons ch rest ih =>
      intro j g hwf
      simp only [hor_main_write_loop]
      set grid' : GameGrid :=
        (if (j : Int) - (loc : Int) = 0 then
          g.set_cell row_0 (col_0 + ((j : Int) - (loc : Int))) (Char.toUpper ch)
         else if 0 ≤ row_0 ∧ row_0 < (config.rows : Int) ∧
             0 ≤ col_0 + ((j : Int) - (loc : Int)) ∧
             col_0 + ((j : Int) - (loc : Int)) < (config.columns : Int) then
           g.set_cell row_0 (col_0 + ((j : Int) - (loc : Int))) ch
         else g) with hgrid'
      have hwf' : WFGrid grid' := by
        rw [hgrid']
        split
        · exact WFGrid_set_cell hwf _ _ _
        · split
          · exact WFGrid_set_cell hwf _ _ _
          · exact hwf
      have hgetg' : ∀ r c : Int,
          (r ≠ row_0 ∨ c ≠ col_0 + (j : Int) - (loc : Int)) →
          grid'.get_cell r c = g.get_cell r c := by
        intro r c hcond
        rw [hgrid']
        split
        · rw [get_cell_set_cell hwf]
          rw [if_neg]
          rintro ⟨hr, hc, _⟩
          rcases hcond with h1 | h1
          · exact h1 hr
          · exact h1 (by rw [hc]; ring)
        · split
          · rw [get_cell_set_cell hwf]
            rw [if_neg]
            rintro ⟨hr, hc, _⟩
            rcases hcond with h1 | h1
            · exact h1 hr
            · exact h1 (by rw [hc]; ring)
          · rfl
      obtain ⟨ihwf, ihlen, ihpos, ihun, ihwr, ihanc⟩ := ih (j + 1) grid' hwf'
      have huntouch : ∀ r c : Int,
          (∀ t, t < rest.length + 1 → r ≠ row_0 ∨
            c ≠ col_0 + (j : Int) + (t : Int) - (loc : Int)) →
          (hor_main_write_loop row_0 col_0 loc (j + 1) rest grid').1.get_cell r c =
            g.get_cell r c := by
        intro r c hcond
        have hstep : (hor_main_write_loop row_0 col_0 loc (j + 1) rest grid').1.get_cell r c =
            grid'.get_cell r c := by
          apply ihun
          intro t ht
          have := hcond (t + 1) (by omega)
          rcases this with h1 | h1
          · exact Or.inl h1
          · refine Or.inr ?_
            intro hcontra
            apply h1
            rw [hcontra]
            push_cast
            ring
        rw [hstep]
        apply hgetg'
        have := hcond 0 (by omega)
        rcases this with h1 | h1
        · exact Or.inl h1
        · refine Or.inr ?_
          intro hcontra
          apply h1
          rw [hcontra]
          push_cast
          ring
      refine ⟨ihwf, by simpa using ihlen, ?_, ?_, ?_, ?_⟩
      · intro t ht
        cases t with
        | zero =>
            show ((row_0, col_0 + ((j : Int) - (loc : Int)))) = _
            have : col_0 + ((j : Int) - (loc : Int)) =
                col_0 + (j : Int) + ((0 : ℕ) : Int) - (loc : Int) := by
              push_cast
              ring
            rw [this]
        | succ t' =>
            have ht' : t' < rest.length := by simpa using ht
            show (hor_main_write_loop row_0 col_0 loc (j + 1) rest grid').2.getD t' (0, 0) = _
            rw [ihpos t' ht']
            have : col_0 + ((j + 1 : ℕ) : Int) + (t' : Int) - (loc : Int) =
                col_0 + (j : Int) + ((t' + 1 : ℕ) : Int) - (loc : Int) := by
              push_cast
              ring
            rw [this]
      · intro r c hcond
        exact huntouch r c (by simpa using hcond)
      · intro t ht hne hbounds
        cases t with
        | zero =>
            have hcell : col_0 + (j : Int) + ((0 : ℕ) : Int) - (loc : Int) =
                col_0 + ((j : Int) - (loc : Int)) := by
              push_cast
              ring
            rw [hcell] at hbounds ⊢
            have hjne : j ≠ loc := by simpa using hne
            have hstep : (hor_main_write_loop row_0 col_0 loc (j + 1) rest grid').1.get_cell
                row_0 (col_0 + ((j : Int) - (loc : Int))) =
                grid'.get_cell row_0 (col_0 + ((j : Int) - (loc : Int))) := by
              apply ihun
              intro t' ht'
              refine Or.inr ?_
              intro hcontra
              omega
            rw [hstep, hgrid']
            have hoffne : ¬ ((j : Int) - (loc : Int) = 0) := by omega
            rw [if_neg hoffne]
            obtain ⟨hb1, hb2, hb3, hb4⟩ := hbounds
            rw [if_pos ⟨hb1, hb2, hb3, hb4⟩]
            rw [get_cell_set_cell hwf]
            rw [if_pos ⟨rfl, rfl, hb1, hb2, hb3, hb4⟩]
            rfl
        | succ t' =>
            have ht' : t' < rest.length := by simpa using ht
            have hcell : col_0 + (j : Int) + ((t' + 1 : ℕ) : Int) - (loc : Int) =
                col_0 + ((j + 1 : ℕ) : Int) + (t' : Int) - (loc : Int) := by
              push_cast
              ring
            rw [hcell] at hbounds ⊢
            have hne' : (j + 1) + t' ≠ loc := by omega
            exact ihwr t' ht' hne' hbounds
      · intro t ht heq hbounds
        cases t with
        | zero =>
            have hcell : col_0 + (j : Int) + ((0 : ℕ) : Int) - (loc : Int) =
                col_0 + ((j : Int) - (loc : Int)) := by
              push_cast
              ring
            rw [hcell] at hbounds ⊢
            have hjeq : j = loc := by simpa using heq
            have hstep : (hor_main_write_loop row_0 col_0 loc (j + 1) rest grid').1.get_cell
                row_0 (col_0 + ((j : Int) - (loc : Int))) =
                grid'.get_cell row_0 (col_0 + ((j : Int) - (loc : Int))) := by
              apply ihun
              intro t' ht'
              refine Or.inr ?_
              intro hcontra
              omega
            rw [hstep, hgrid']
            have hoff : (j : Int) - (loc : Int) = 0 := by omega
            rw [if_pos hoff]
            obtain ⟨hb1, hb2, hb3, hb4⟩ := hbounds
            rw [get_cell_set_cell hwf]
            rw [if_pos ⟨rfl, rfl, hb1, hb2, hb3, hb4⟩]
            rfl
        | succ t' =>
            have ht' : t' < rest.length := by simpa using ht
            have hcell : col_0 + (j : Int) + ((t' + 1 : ℕ) : Int) - (loc : Int) =
                col_0 + ((j + 1 : ℕ) : Int) + (t' : Int) - (loc : Int) := by
              push_cast
              ring
            rw [hcell] at hbounds ⊢
            have heq' : (j + 1) + t' = loc := by omega
            exact ihanc t' ht' heq' hbounds

theorem diag_write_loop_spec (w : List Char) :
    ∀ (j : ℕ) (g : GameGrid), WFGrid g →
      WFGrid (diag_write_loop j w g).1 ∧
      (diag_write_loop j w g).2.length = w.length ∧
      (∀ t, t < w.length →
        (diag_write_loop j w g).2.getD t (0, 0) =
          (config.center_row + ((j : Int) + (t : Int)) * 2,
            config.center_col + ((j : Int) + (t : Int)) * 2)) ∧
      (∀ r c : Int,
        (∀ t, t < w.length → r ≠ config.center_row + ((j : Int) + (t : Int)) * 2 ∨
          c ≠ config.center_col + ((j : Int) + (t : Int)) * 2) →
        (diag_write_loop j w g).1.get_cell r c = g.get_cell r c) ∧
      (∀ t, t < w.length →
        in_grid_bounds (config.center_row + ((j : Int) + (t : Int)) * 2,
          config.center_col + ((j : Int) + (t : Int)) * 2) →
        (diag_write_loop j w g).1.get_cell
          (config.center_row + ((j : Int) + (t : Int)) * 2)
          (config.center_col + ((j : Int) + (t : Int)) * 2) =
          Char.toUpper (w.getD t ' ')) := by
  induction w with
  | nil =>
      intro j g hwf
      refine ⟨hwf, rfl, ?_, ?_, ?_⟩
      · intro t ht
        simp at ht
      · intro r c _
        rfl
      · intro t ht
        simp at ht
  | cons ch rest ih =>
      intro j g hwf
      simp only [diag_write_loop]
      set grid' : GameGrid :=
        g.set_cell (config.center_row + (j : Int) * 2)
          (config.center_col + (j : Int) * 2) (Char.toUpper ch) with hgrid'
      have hwf' : WFGrid grid' := WFGrid_set_cell hwf _ _ _
      have hgetg' : ∀ r c : Int,
          (r ≠ config.center_row + (j : Int) * 2 ∨
            c ≠ config.center_col + (j : Int) * 2) →
          grid'.get_cell r c = g.get_cell r c := by
        intro r c hcond
        rw [hgrid']
        rw [get_cell_set_cell hwf]
        rw [if_neg]
        rintro ⟨hr, hc, _⟩
        rcases hcond with h1 | h1
        · exact h1 hr
        · exact h1 hc
      obtain ⟨ihwf, ihlen, ihpos, ihun, ihwr⟩ := ih (j + 1) grid' hwf'
      refine ⟨ihwf, by simpa using ihlen, ?_, ?_, ?_⟩
      · intro t ht
        cases t with
        | zero =>
            show ((config.center_row + (j : Int) * 2,
              config.center_col + (j : Int) * 2)) = _
            have h1 : config.center_row + (j : Int) * 2 =
                config.center_row + ((j : Int) + ((0 : ℕ) : Int)) * 2 := by
              push_cast
              ring
            have h2 : config.center_col + (j : Int) * 2 =
                config.center_col + ((j : Int) + ((0 : ℕ) : Int)) * 2 := by
              push_cast
              ring
            rw [h1, h2]
        | succ t' =>
            have ht' : t' < rest.length := by simpa using ht
            show (diag_write_loop (j + 1) rest grid').2.getD t' (0, 0) = _
            rw [ihpos t' ht']
            have h1 : config.center_row + (((j + 1 : ℕ) : Int) + (t' : Int)) * 2 =
                config.center_row + ((j : Int) + ((t' + 1 : ℕ) : Int)) * 2 := by
              push_cast
              ring
            have h2 : config.center_col + (((j + 1 : ℕ) : Int) + (t' : Int)) * 2 =
                config.center_col + ((j : Int) + ((t' + 1 : ℕ) : Int)) * 2 := by
              push_cast
              ring
            rw [h1, h2]
      · intro r c hcond
        have hstep : (diag_write_loop (j + 1) rest grid').1.get_cell r c =
            grid'.get_cell r c := by
          apply ihun
          intro t ht
          have := hcond (t + 1) (by simp only [List.length_cons]; omega)
          rcases this with h1 | h1
          · refine Or.inl ?_
            intro hcontra
            apply h1
            rw [hcontra]
            push_cast
            ring
          · refine Or.inr ?_
            intro hcontra
            apply h1
            rw [hcontra]
            push_cast
            ring
        rw [hstep]
        apply hgetg'
        have := hcond 0 (by simp)
        rcases this with h1 | h1
        · refine Or.inl ?_
          intro hcontra
          apply h1
          rw [hcontra]
          push_cast
          ring
        · refine Or.inr ?_
          intro hcontra
          apply h1
          rw [hcontra]
          push_cast
          ring
      · intro t ht hbounds
        cases t with
        | zero =>
            have h1 : config.center_row + ((j : Int) + ((0 : ℕ) : Int)) * 2 =
                config.center_row + (j : Int) * 2 := by
              push_cast
              ring
            have h2 : config.center_col + ((j : Int) + ((0 : ℕ) : Int)) * 2 =
                config.center_col + (j : Int) * 2 := by
              push_cast
              ring
            rw [h1, h2] at hbounds ⊢
            have hstep : (diag_write_loop (j + 1) rest grid').1.get_cell
                (config.center_row + (j : Int) * 2)
                (config.center_col + (j : Int) * 2) =
                grid'.get_cell (config.center_row + (j : Int) * 2)
                  (config.center_col + (j : Int) * 2) := by
              apply ihun
              intro t' ht'
              refine Or.inl ?_
              intro hcontra
              omega
            rw [hstep, hgrid']
            obtain ⟨hb1, hb2, hb3, hb4⟩ := hbounds
            rw [get_cell_set_cell hwf]
            rw [if_pos ⟨rfl, rfl, hb1, hb2, hb3, hb4⟩]
            rfl
        | succ t' =>
            have ht' : t' < rest.length := by simpa using ht
            have h1 : config.center_row + ((j : Int) + ((t' + 1 : ℕ) : Int)) * 2 =
                config.center_row + (((j + 1 : ℕ) : Int) + (t' : Int)) * 2 := by
              push_cast
              ring
            have h2 : config.center_col + ((j : Int) + ((t' + 1 : ℕ) : Int)) * 2 =
                config.center_col + (((j + 1 : ℕ) : Int) + (t' : Int)) * 2 := by
              push_cast
              ring
            rw [h1, h2] at hbounds ⊢
            exact ihwr t' ht' hbounds

/-! ### Validator extraction -/

theorem ver_can_be_placed_letters {grid : GameGrid} {w : List Char}
    {r0 c0 : Int} {loc : ℕ} (h : ver_can_be_placed grid w r0 c0 loc = true) :
    ∀ i, i < w.length →
      in_grid_bounds (r0 + (i : Int) - (loc : Int), c0) ∧
      (grid.get_cell (r0 + (i : Int) - (loc : Int)) c0 = '.' ∨
        grid.get_cell (r0 + (i : Int) - (loc : Int)) c0 = w.getD i ' ') ∧
      (i ≠ loc → grid.get_cell (r0 + (i : Int) - (loc : Int)) c0 = '.') := by
  intro i hi
  unfold ver_can_be_placed at h
  rw [Bool.and_eq_true, Bool.and_eq_true] at h
  obtain ⟨⟨htop, hbot⟩, hletters⟩ := h
  have hlet := List.all_eq_true.mp hletters i (List.mem_range.mpr hi)
  simp only at hlet
  rw [Bool.and_eq_true, Bool.and_eq_true] at hlet
  obtain ⟨⟨hbnd, hcell⟩, hadj⟩ := hlet
  rw [decide_eq_true_eq] at hbnd
  have hrow : r0 + ((i : Int) - (loc : Int)) = r0 + (i : Int) - (loc : Int) := by
    ring
  rw [hrow] at hbnd hcell hadj
  rw [Bool.or_eq_true, beq_iff_eq, beq_iff_eq] at hcell
  refine ⟨⟨hbnd.1, hbnd.2.1, hbnd.2.2.1, hbnd.2.2.2⟩, hcell, ?_⟩
  intro hne
  rw [Bool.or_eq_true] at hadj
  rcases hadj with hoff | hadj
  · rw [beq_iff_eq] at hoff
    exact absurd (by omega : i = loc) hne
  · have hs0 := List.all_eq_true.mp hadj 0 (by decide)
    simp only at hs0
    by_cases hi0 : i = 0
    · rw [if_pos hi0] at hs0
      have ht0 := List.all_eq_true.mp hs0 0 (by decide)
      simp only [add_zero] at ht0
      rw [if_pos hbnd.1] at ht0
      rw [if_pos ⟨hbnd.2.2.1, hbnd.2.2.2, hbnd.1, hbnd.2.1⟩] at ht0
      rwa [beq_iff_eq] at ht0
    · rw [if_neg hi0] at hs0
      by_cases hil : i = w.length - 1
      · rw [if_pos hil] at hs0
        have hb0 := List.all_eq_true.mp hs0 0 (by decide)
        simp only [add_zero] at hb0
        rw [if_pos hbnd.2.1] at hb0
        rw [if_pos ⟨hbnd.2.2.1, hbnd.2.2.2, hbnd.1, hbnd.2.1⟩] at hb0
        rwa [beq_iff_eq] at hb0
      · rw [if_neg hil] at hs0
        simp only [add_zero] at hs0
        rw [if_pos ⟨hbnd.2.2.1, hbnd.2.2.2⟩] at hs0
        rwa [beq_iff_eq] at hs0

theorem hor_can_be_placed_letters {grid : GameGrid} {w : List Char}
    {r0 c0 : Int} {loc : ℕ} (h : hor_can_be_placed grid w r0 c0 loc = true) :
    ∀ i, i < w.length →
      in_grid_bounds (r0, c0 + (i : Int) - (loc : Int)) ∧
      (grid.get_cell r0 (c0 + (i : Int) - (loc : Int)) = '.' ∨
        grid.get_cell r0 (c0 + (i : Int) - (loc : Int)) = w.getD i ' ') ∧
      (i ≠ loc → grid.get_cell r0 (c0 + (i : Int) - (loc : Int)) = '.') := by
  intro i hi
  unfold hor_can_be_placed at h
  rw [Bool.and_eq_true, Bool.and_eq_true] at h
  obtain ⟨⟨hleft, hright⟩, hletters⟩ := h
  have hlet := List.all_eq_true.mp hletters i (List.mem_range.mpr hi)
  simp only at hlet
  rw [Bool.and_eq_true, Bool.and_eq_true] at hlet
  obtain ⟨⟨hbnd, hcell⟩, hadj⟩ := hlet
  rw [decide_eq_true_eq] at hbnd
  have hcol : c0 + ((i : Int) - (loc : Int)) = c0 + (i : Int) - (loc : Int) := by
    ring
  rw [hcol] at hbnd hcell hadj
  rw [Bool.or_eq_true, beq_iff_eq, beq_iff_eq] at hcell
  refine ⟨⟨hbnd.1, hbnd.2.1, hbnd.2.2.1, hbnd.2.2.2⟩, hcell, ?_⟩
  intro hne
  rw [Bool.or_eq_true] at hadj
  rcases hadj with hoff | hadj
  · rw [beq_iff_eq] at hoff
    exact absurd (by omega : i = loc) hne
  · have hs0 := List.all_eq_true.mp hadj 0 (by decide)
    simp only at hs0
    by_cases hi0 : i = 0
    · rw [if_pos hi0] at hs0
      have ht0 := List.all_eq_true.mp hs0 0 (by decide)
      simp only [add_zero] at ht0
      rw [if_pos ⟨hbnd.2.2.1, hbnd.2.2.2, hbnd.1, hbnd.2.1⟩] at ht0
      rwa [beq_iff_eq] at ht0
    · rw [if_neg hi0] at hs0
      by_cases hil : i = w.length - 1
      · rw [if_pos hil] at hs0
        have hb0 := List.all_eq_true.mp hs0 0 (by decide)
        simp only [add_zero] at hb0
        rw [if_pos ⟨hbnd.2.2.1, hbnd.2.2.2, hbnd.1, hbnd.2.1⟩] at hb0
        rwa [beq_iff_eq] at hb0
      · rw [if_neg hil] at hs0
        simp only [add_zero] at hs0
        rw [if_pos ⟨hbnd.1, hbnd.2.1⟩] at hs0
        rwa [beq_iff_eq] at hs0

/-! ### Invariant preservation of the placement steps -/

theorem toLower_ne_dot {c : Char} (h : c ≠ '.') : Char.toLower c ≠ '.' :=
  fun hc => h (toLower_eq_dot.mp hc)

theorem entry_letter_ne_dot {key : List Char} {k : ℕ} (hk : k < key.length)
    (hdot : ('.' : Char) ∉ key) : key.getD k ' ' ≠ '.' := by
  intro hcontra
  exact hdot (hcontra ▸ getD_mem_lt hk ' ')

theorem place_vertical_subwords_inv (word : List Char)
    (subwords : List (List Char)) (g : GameGrid) (gs : GameState) (v : ℕ)
    (rng : List ℕ) (hinv : LevelInv g gs)
    (hpool : ∀ sw ∈ subwords, ('.' : Char) ∉ sw) :
    LevelInv (place_vertical_subwords word subwords g gs v rng).1
      (place_vertical_subwords word subwords g gs v rng).2.1 ∧
    (∀ sw ∈ (place_vertical_subwords word subwords g gs v rng).2.2.2.1,
      sw ∈ subwords) := by
  simp only [place_vertical_subwords]
  by_cases hpos : gs.get_word_positions word = []
  · rw [if_pos hpos]
    exact ⟨hinv, fun sw h => h⟩
  · rw [if_neg hpos]
    split
    · exact ⟨hinv, fun sw h => h⟩
    · rename_i pre sw post hext
      obtain ⟨hsplit, hp⟩ := extract_first_eq hext
      rw [Bool.and_eq_true, decide_eq_true_eq] at hp
      obtain ⟨hml, hver⟩ := hp
      obtain ⟨gw, hget⟩ : ∃ gw, dict_get word gs.game_words = some gw := by
        unfold GameState.get_word_positions at hpos
        cases hd : dict_get word gs.game_words with
        | none => rw [hd] at hpos; simp at hpos
        | some gw => exact ⟨gw, rfl⟩
      have hposdef : gs.get_word_positions word = gw.positions := by
        unfold GameState.get_word_positions
        rw [hget]
      have hmem_entry : (word, gw) ∈ gs.game_words := dict_get_mem hget
      obtain ⟨hokw, hoklen, hokdot, hokcells⟩ := hinv.2 _ hmem_entry
      have hwlen : 0 < word.length := by
        rw [hposdef] at hpos
        have h0 : gw.positions.length ≠ 0 :=
          fun h0 => hpos (List.length_eq_zero.mp h0)
        simp only at hoklen
        omega
      have hrlt : rng.headD 0 % word.length < word.length := Nat.mod_lt _ hwlen
      have hcell0 := hokcells _ hrlt
      rw [← hposdef] at hcell0
      obtain ⟨hposb, hposlow⟩ := hcell0
      have hmlne : word.getD (rng.headD 0 % word.length) ' ' ≠ '.' :=
        entry_letter_ne_dot hrlt hokdot
      have hloclt : py_index (word.getD (rng.headD 0 % word.length) ' ') sw
          < sw.length := py_index_lt hml
      have hlocget : sw.getD
          (py_index (word.getD (rng.headD 0 % word.length) ' ') sw) ' ' =
          word.getD (rng.headD 0 % word.length) ' ' := getD_py_index hml
      set ml := word.getD (rng.headD 0 % word.length) ' ' with hmldef
      set loc := py_index ml sw with hlocdef
      set pos := (gs.get_word_positions word).getD (rng.headD 0 % word.length)
        (0, 0) with hposd
      have hlets := ver_can_be_placed_letters hver
      have hanchor : g.get_cell pos.1 pos.2 = ml := by
        have hl := (hlets loc hloclt).2.1
        have hac : pos.1 + (loc : Int) - (loc : Int) = pos.1 := by ring
        rw [hac] at hl
        rcases hl with hdot | hmatch
        · exfalso
          apply toLower_ne_dot hmlne
          rw [← hposlow, hdot]
          rfl
        · rw [hmatch, hlocget]
      obtain ⟨hswf, hslen, hspos, hsun, hswr⟩ :=
        ver_write_loop_spec pos.1 pos.2 loc sw 0 g hinv.1
      have hc0 : ∀ t : ℕ, pos.1 + ((0 : ℕ) : Int) + (t : Int) - (loc : Int) =
          pos.1 + (t : Int) - (loc : Int) := by
        intro t
        push_cast
        ring
      have hsw_mem : sw ∈ subwords := by
        rw [hsplit]
        exact List.mem_append_right _ (List.mem_cons_self _ _)
      have hswdot : ('.' : Char) ∉ sw := hpool sw hsw_mem
      have hanchor_untouched :
          (ver_write_loop pos.1 pos.2 loc 0 sw g).1.get_cell pos.1 pos.2 =
            g.get_cell pos.1 pos.2 := by
        apply hsun
        intro t ht
        by_cases htl : t = loc
        · exact Or.inl (by omega)
        · refine Or.inr (Or.inl ?_)
          intro hcontra
          omega
      constructor
      · refine ⟨hswf, ?_⟩
        intro e he
        simp only [GameState.add_word] at he
        rcases mem_dict_insert he with heq | hold
        · subst heq
          refine ⟨rfl, by simpa using hslen, hswdot, ?_⟩
          intro k hk
          simp only at hk ⊢
          have hpk := hspos k hk
          rw [hc0 k] at hpk
          rw [hpk]
          refine ⟨(hlets k hk).1, ?_⟩
          by_cases hkloc : k = loc
          · subst hkloc
            have hck : pos.1 + (loc : Int) - (loc : Int) = pos.1 := by ring
            rw [hck]
            rw [hanchor_untouched, hanchor, ← hlocget]
          · have hwr := hswr k hk (by omega)
            rw [hc0 k] at hwr
            rw [hwr (hlets k hk).1]
        · obtain ⟨hw1, hw2, hw3, hw4⟩ := hinv.2 e hold
          refine ⟨hw1, hw2, hw3, ?_⟩
          intro k hk
          obtain ⟨hkb, hklow⟩ := hw4 k hk
          refine ⟨hkb, ?_⟩
          have huntouched : (ver_write_loop pos.1 pos.2 loc 0 sw g).1.get_cell
              (e.2.positions.getD k (0, 0)).1 (e.2.positions.getD k (0, 0)).2 =
              g.get_cell (e.2.positions.getD k (0, 0)).1
                (e.2.positions.getD k (0, 0)).2 := by
            apply hsun
            intro t ht
            by_cases htl : t = loc
            · exact Or.inl (by omega)
            · by_cases hr : (e.2.positions.getD k (0, 0)).1 =
                  pos.1 + ((0 : ℕ) : Int) + (t : Int) - (loc : Int)
              · by_cases hc : (e.2.positions.getD k (0, 0)).2 = pos.2
                · exfalso
                  have hdotc := (hlets t ht).2.2 htl
                  rw [← hc0 t, ← hr] at hdotc
                  rw [← hc] at hdotc
                  have hlne := entry_letter_ne_dot hk hw3
                  apply toLower_ne_dot hlne
                  rw [← hklow, hdotc]
                  rfl
                · exact Or.inr (Or.inr hc)
              · exact Or.inr (Or.inl hr)
          rw [huntouched]
          exact hklow
      · intro x hx
        simp only at hx
        rw [hsplit]
        rcases List.mem_append.mp hx with h1 | h1
        · exact List.mem_append_left _ h1
        · exact List.mem_append_right _ (List.mem_cons_of_mem _ h1)

theorem place_horizontal_subwords_inv (word : List Char)
    (subwords : List (List Char)) (g : GameGrid) (gs : GameState) (hcnt : ℕ)
    (rng : List ℕ) (hinv : LevelInv g gs)
    (hpool : ∀ sw ∈ subwords, ('.' : Char) ∉ sw) :
    LevelInv (place_horizontal_subwords word subwords g gs hcnt rng).1
      (place_horizontal_subwords word subwords g gs hcnt rng).2.1 ∧
    (∀ sw ∈ (place_horizontal_subwords word subwords g gs hcnt rng).2.2.2.1,
      sw ∈ subwords) := by
  simp only [place_horizontal_subwords]
  by_cases hpos : gs.get_word_positions word = []
  · rw [if_pos hpos]
    exact ⟨hinv, fun sw h => h⟩
  · rw [if_neg hpos]
    split
    · exact ⟨hinv, fun sw h => h⟩
    · rename_i pre sw post hext
      obtain ⟨hsplit, hp⟩ := extract_first_eq hext
      rw [Bool.and_eq_true, decide_eq_true_eq] at hp
      obtain ⟨hml, hhor⟩ := hp
      obtain ⟨gw, hget⟩ : ∃ gw, dict_get word gs.game_words = some gw := by
        unfold GameState.get_word_positions at hpos
        cases hd : dict_get word gs.game_words with
        | none => rw [hd] at hpos; simp at hpos
        | some gw => exact ⟨gw, rfl⟩
      have hposdef : gs.get_word_positions word = gw.positions := by
        unfold GameState.get_word_positions
        rw [hget]
      have hmem_entry : (word, gw) ∈ gs.game_words := dict_get_mem hget
      obtain ⟨hokw, hoklen, hokdot, hokcells⟩ := hinv.2 _ hmem_entry
      have hwlen : 0 < word.length := by
        rw [hposdef] at hpos
        have h0 : gw.positions.length ≠ 0 :=
          fun h0 => hpos (List.length_eq_zero.mp h0)
        simp only at hoklen
        omega
      have hrlt : rng.headD 0 % word.length < word.length := Nat.mod_lt _ hwlen
      have hcell0 := hokcells _ hrlt
      rw [← hposdef] at hcell0
      obtain ⟨hposb, hposlow⟩ := hcell0
      have hmlne : word.getD (rng.headD 0 % word.length) ' ' ≠ '.' :=
        entry_letter_ne_dot hrlt hokdot
      have hloclt : py_index (word.getD (rng.headD 0 % word.length) ' ') sw
          < sw.length := py_index_lt hml
      have hlocget : sw.getD
          (py_index (word.getD (rng.headD 0 % word.length) ' ') sw) ' ' =
          word.getD (rng.headD 0 % word.length) ' ' := getD_py_index hml
      set ml := word.getD (rng.headD 0 % word.length) ' ' with hmldef
      set loc := py_index ml sw with hlocdef
      set pos := (gs.get_word_positions word).getD (rng.headD 0 % word.length)
        (0, 0) with hposd
      have hlets := hor_can_be_placed_letters hhor
      have hanchor : g.get_cell pos.1 pos.2 = ml := by
        have hl := (hlets loc hloclt).2.1
        have hac : pos.2 + (loc : Int) - (loc : Int) = pos.2 := by ring
        rw [hac] at hl
        rcases hl with hdot | hmatch
        · exfalso
          apply toLower_ne_dot hmlne
          rw [← hposlow, hdot]
          rfl
        · rw [hmatch, hlocget]
      obtain ⟨hswf, hslen, hspos, hsun, hswr⟩ :=
        hor_write_loop_spec pos.1 pos.2 loc sw 0 g hinv.1
      have hc0 : ∀ t : ℕ, pos.2 + ((0 : ℕ) : Int) + (t : Int) - (loc : Int) =
          pos.2 + (t : Int) - (loc : Int) := by
        intro t
        push_cast
        ring
      have hsw_mem : sw ∈ subwords := by
        rw [hsplit]
        exact List.mem_append_right _ (List.mem_cons_self _ _)
      have hswdot : ('.' : Char) ∉ sw := hpool sw hsw_mem
      have hanchor_untouched :
          (hor_write_loop pos.1 pos.2 loc 0 sw g).1.get_cell pos.1 pos.2 =
            g.get_cell pos.1 pos.2 := by
        apply hsun
        intro t ht
        by_cases htl : t = loc
        · exact Or.inl (by omega)
        · refine Or.inr (Or.inr ?_)
          intro hcontra
          omega
      constructor
      · refine ⟨hswf, ?_⟩
        intro e he
        simp only [GameState.add_word] at he
        rcases mem_dict_insert he with heq | hold
        · subst heq
          refine ⟨rfl, by simpa using hslen, hswdot, ?_⟩
          intro k hk
          simp only at hk ⊢
          have hpk := hspos k hk
          rw [hc0 k] at hpk
          rw [hpk]
          refine ⟨(hlets k hk).1, ?_⟩
          by_cases hkloc : k = loc
          · subst hkloc
            have hck : pos.2 + (loc : Int) - (loc : Int) = pos.2 := by ring
            rw [hck]
            rw [hanchor_untouched, hanchor, ← hlocget]
          · have hwr := hswr k hk (by omega)
            rw [hc0 k] at hwr
            rw [hwr (hlets k hk).1]
        · obtain ⟨hw1, hw2, hw3, hw4⟩ := hinv.2 e hold
          refine ⟨hw1, hw2, hw3, ?_⟩
          intro k hk
          obtain ⟨hkb, hklow⟩ := hw4 k hk
          refine ⟨hkb, ?_⟩
          have huntouched : (hor_write_loop pos.1 pos.2 loc 0 sw g).1.get_cell
              (e.2.positions.getD k (0, 0)).1 (e.2.positions.getD k (0, 0)).2 =
              g.get_cell (e.2.positions.getD k (0, 0)).1
                (e.2.positions.getD k (0, 0)).2 := by
            apply hsun
            intro t ht
            by_cases htl : t = loc
            · exact Or.inl (by omega)
            · by_cases hc : (e.2.positions.getD k (0, 0)).2 =
                  pos.2 + ((0 : ℕ) : Int) + (t : Int) - (loc : Int)
              · by_cases hr : (e.2.positions.getD k (0, 0)).1 = pos.1
                · exfalso
                  have hdotc := (hlets t ht).2.2 htl
                  rw [← hc0 t, ← hc] at hdotc
                  rw [← hr] at hdotc
                  have hlne := entry_letter_ne_dot hk hw3
                  apply toLower_ne_dot hlne
                  rw [← hklow, hdotc]
                  rfl
                · exact Or.inr (Or.inl hr)
              · exact Or.inr (Or.inr hc)
          rw [huntouched]
          exact hklow
      · intro x hx
        simp only at hx
        rw [hsplit]
        rcases List.mem_append.mp hx with h1 | h1
        · exact List.mem_append_left _ h1
        · exact List.mem_append_right _ (List.mem_cons_of_mem _ h1)

theorem bootstrap_loop_inv (fuel : ℕ) :
    ∀ (grid : GameGrid) (gs : GameState) (subwords : List (List Char))
      (vcount : ℕ) (rng : List ℕ) (attempts : ℕ),
      LevelInv grid gs → (∀ sw ∈ subwords, ('.' : Char) ∉ sw) →
      LevelInv (bootstrap_loop fuel grid gs subwords vcount rng attempts).1
        (bootstrap_loop fuel grid gs subwords vcount rng attempts).2.1 ∧
      (∀ sw ∈ (bootstrap_loop fuel grid gs subwords vcount rng attempts).2.2.1,
        sw ∈ subwords) := by
  induction fuel with
  | zero =>
      intro grid gs subwords vcount rng attempts hinv hpool
      exact ⟨hinv, fun sw h => h⟩
  | succ fuel ih =>
      intro grid gs subwords vcount rng attempts hinv hpool
      simp only [bootstrap_loop]
      by_cases hv : vcount < config.min_vertical_words
      · rw [if_pos hv]
        by_cases hw : horizontal_words gs = []
        · rw [if_pos hw]
          exact ⟨hinv, fun sw h => h⟩
        · rw [if_neg hw]
          obtain ⟨hinv', hsub'⟩ := place_vertical_subwords_inv
            ((horizontal_words gs).getD (rng.headD 0 % (horizontal_words gs).length) [])
            subwords grid gs vcount rng.tail hinv hpool
          obtain ⟨hres, hrsub⟩ := ih _ _ _ _ _ _ hinv'
            (fun sw hsw => hpool sw (hsub' sw hsw))
          exact ⟨hres, fun sw hsw => hsub' sw (hrsub sw hsw)⟩
      · rw [if_neg hv]
        exact ⟨hinv, fun sw h => h⟩

theorem fill_loop_inv (fuel : ℕ) :
    ∀ (grid : GameGrid) (subwords : List (List Char)) (gs : GameState)
      (vcount hcount : ℕ) (direction : String) (rng : List ℕ) (attempts : ℕ),
      LevelInv grid gs → (∀ sw ∈ subwords, ('.' : Char) ∉ sw) →
      LevelInv
        (fill_loop fuel grid subwords gs vcount hcount direction rng attempts).1
        (fill_loop fuel grid subwords gs vcount hcount direction rng attempts).2.1 := by
  induction fuel with
  | zero =>
      intro grid subwords gs vcount hcount direction rng attempts hinv hpool
      exact hinv
  | succ fuel ih =>
      intro grid subwords gs vcount hcount direction rng attempts hinv hpool
      simp only [fill_loop]
      by_cases hcnt : vcount + hcount + 7 < config.max_total_words
      · rw [if_pos hcnt]
        by_cases hd1 : direction = "vertical" ∧ horizontal_words gs ≠ []
        · rw [if_pos hd1]
          obtain ⟨hinv', hsub'⟩ := place_vertical_subwords_inv
            ((horizontal_words gs).getD (rng.headD 0 % (horizontal_words gs).length) [])
            subwords grid gs vcount rng.tail hinv hpool
          exact ih _ _ _ _ _ _ _ _ hinv' (fun sw hsw => hpool sw (hsub' sw hsw))
        · rw [if_neg hd1]
          by_cases hd2 : direction = "horizontal" ∧ vertical_words gs ≠ []
          · rw [if_pos hd2]
            obtain ⟨hinv', hsub'⟩ := place_horizontal_subwords_inv
              ((vertical_words gs).getD (rng.headD 0 % (vertical_words gs).length) [])
              subwords grid gs hcount rng.tail hinv hpool
            exact ih _ _ _ _ _ _ _ _ hinv' (fun sw hsw => hpool sw (hsub' sw hsw))
          · rw [if_neg hd2]
            exact hinv
      · rw [if_neg hcnt]
        exact hinv

/-! ### The seeding phases -/

theorem center_row_eq : config.center_row = 2 := by decide

theorem center_col_eq : config.center_col = 7 := by decide

theorem replicate_getD {α : Type} (n : ℕ) (a : α) (i : ℕ) (d : α) :
    (List.replicate n a).getD i d = if i < n then a else d := by
  induction n generalizing i with
  | zero => simp
  | succ m ih =>
      cases i with
      | zero => simp
      | succ j =>
          simp only [List.replicate_succ, List.getD_cons_succ, ih]
          by_cases hj : j < m
          · rw [if_pos hj, if_pos (by omega)]
          · rw [if_neg hj, if_neg (by omega)]

theorem WFGrid_make_grid : WFGrid make_grid := by
  refine ⟨rfl, rfl, by simp [make_grid], ?_⟩
  intro row hrow
  simp only [make_grid] at hrow
  rw [List.eq_of_mem_replicate hrow]
  simp

theorem make_grid_get_cell (r c : Int) : make_grid.get_cell r c = '.' := by
  unfold GameGrid.get_cell
  split
  · rename_i hb
    show ((List.replicate 15 (List.replicate 25 '.')).getD r.toNat []).getD
      c.toNat '.' = '.'
    rw [replicate_getD]
    rw [if_pos (by simp only [make_grid] at hb; omega)]
    rw [replicate_getD]
    split
    · rfl
    · rfl
  · rfl

theorem drop_cons_getD {mw rest : List Char} {ml : Char} {i : ℕ}
    (h : mw.drop i = ml :: rest) :
    mw.getD i ' ' = ml ∧ mw.drop (i + 1) = rest ∧ i < mw.length := by
  have hlt : i < mw.length := by
    by_contra hge
    rw [List.drop_eq_nil_of_le (by omega)] at h
    cases h
  refine ⟨?_, ?_, hlt⟩
  · rw [List.getD_eq_getElem _ _ hlt]
    have h0 : (mw.drop i).getD 0 ' ' = ml := by rw [h]; rfl
    rw [List.getD_eq_getElem _ _ (by simpa using hlt)] at h0
    rw [← h0]
    rw [List.getElem_drop]
    simp
  · have : mw.drop (i + 1) = (mw.drop i).drop 1 := by
      rw [List.drop_drop]
    rw [this, h]
    rfl

theorem place_main_subwords_loop_inv (mw : List Char) (hmwlen : mw.length = 6) :
    ∀ (letters : List Char) (i : ℕ) (pool : List (List Char)) (g : GameGrid)
      (gs : GameState),
      letters = mw.drop i →
      i + letters.length = 6 →
      WFGrid g →
      (∀ e ∈ gs.game_words, EntryOK g e) →
      (∀ k : ℕ, k < 6 → g.get_cell (2 + 2 * (k : Int)) (7 + 2 * (k : Int)) =
        Char.toUpper (mw.getD k ' ')) →
      (∀ r c : Int, 0 ≤ r → r < 15 → 0 ≤ c → c < 25 →
        (∀ k : ℕ, k < 6 → ¬(r = 2 + 2 * (k : Int) ∧ c = 7 + 2 * (k : Int))) →
        (∀ k : ℕ, k < i → r ≠ 2 + 2 * (k : Int)) →
        g.get_cell r c = '.') →
      (∀ w ∈ pool, ('.' : Char) ∉ w ∧ 1 ≤ w.length ∧ w.length ≤ 6) →
      LevelInv (place_main_subwords_loop i letters pool g gs).2.1
        (place_main_subwords_loop i letters pool g gs).2.2 ∧
      (∀ w ∈ (place_main_subwords_loop i letters pool g gs).1, w ∈ pool) := by
  intro letters
  induction letters with
  | nil =>
      intro i pool g gs _ _ hwf hentries _ _ _
      exact ⟨⟨hwf, hentries⟩, fun w h => h⟩
  | cons ml rest ih =>
      intro i pool g gs hdrop hcount hwf hentries hdiag hregion hpool
      obtain ⟨hmli, hdrop', hilt⟩ := drop_cons_getD hdrop.symm
      have hi6 : i < 6 := by
        simp only [List.length_cons] at hcount
        omega
      simp only [place_main_subwords_loop]
      split
      · rename_i hnone
        exact ih (i + 1) pool g gs hdrop'.symm
          (by simp only [List.length_cons] at hcount; omega) hwf hentries hdiag
          (fun r c h1 h2 h3 h4 h5 h6 =>
            hregion r c h1 h2 h3 h4 h5 (fun k hk => h6 k (by omega)))
          hpool
      · rename_i pre sw post hext
        obtain ⟨hsplit, hp⟩ := extract_first_eq hext
        rw [decide_eq_true_eq] at hp
        have hsw_mem : sw ∈ pool := by
          rw [hsplit]
          exact List.mem_append_right _ (List.mem_cons_self _ _)
        obtain ⟨hswdot, hswlen1, hswlen6⟩ := hpool sw hsw_mem
        have hloclt : py_index ml sw < sw.length := py_index_lt hp
        have hlocget : sw.getD (py_index ml sw) ' ' = ml := getD_py_index hp
        set loc := py_index ml sw with hlocdef
        set R := config.center_row + (i : Int) * 2 with hRdef
        set C := config.center_col + (i : Int) * 2 with hCdef
        have hR : R = 2 + 2 * (i : Int) := by
          rw [hRdef, center_row_eq]; ring
        have hC : C = 7 + 2 * (i : Int) := by
          rw [hCdef, center_col_eq]; ring
        obtain ⟨hswf, hslen, hspos, hsun, hswr, hsanc⟩ :=
          hor_main_write_loop_spec R C loc sw 0 g hwf
        have hc0 : ∀ t : ℕ, C + ((0 : ℕ) : Int) + (t : Int) - (loc : Int) =
            C + (t : Int) - (loc : Int) := by
          intro t
          push_cast
          ring
        have hbt : ∀ t, t < sw.length →
            in_grid_bounds (R, C + (t : Int) - (loc : Int)) := by
          intro t ht
          refine ⟨?_, ?_, ?_, ?_⟩ <;>
            simp only [hR, hC, config_rows_eq, config_columns_eq] <;> omega
        have hanchor_old : g.get_cell R C = Char.toUpper ml := by
          rw [hR, hC, ← hmli]
          exact hdiag i hi6
        have hanchor_cell : C + (loc : Int) - (loc : Int) = C := by ring
        have hanchor_new :
            (hor_main_write_loop R C loc 0 sw g).1.get_cell R C =
              Char.toUpper ml := by
          have := hsanc loc hloclt (by omega)
          rw [hc0 loc, hanchor_cell] at this
          rw [this (by rw [← hanchor_cell]; exact hbt loc hloclt), hlocget]
        have hother_dot : ∀ t, t < sw.length → t ≠ loc →
            g.get_cell R (C + (t : Int) - (loc : Int)) = '.' := by
          intro t ht htl
          apply hregion
          · rw [hR]; omega
          · rw [hR]; omega
          · rw [hC]; omega
          · rw [hC]; omega
          · intro k hk
            rintro ⟨hrk, hck⟩
            rw [hR] at hrk
            have hki : k = i := by omega
            subst hki
            rw [hC] at hck
            omega
          · intro k hk
            rw [hR]
            intro hcontra
            omega
        have hwritten : ∀ t, t < sw.length → t ≠ loc →
            (hor_main_write_loop R C loc 0 sw g).1.get_cell R
              (C + (t : Int) - (loc : Int)) = sw.getD t ' ' := by
          intro t ht htl
          have := hswr t ht (by omega)
          rw [hc0 t] at this
          exact this (hbt t ht)
        have hpreserve : ∀ r c : Int,
            (r ≠ R ∨ c ≠ C) →
            (∀ hdotcell : g.get_cell r c ≠ '.', True) →
            (g.get_cell r c ≠ '.') →
            (hor_main_write_loop R C loc 0 sw g).1.get_cell r c =
              g.get_cell r c := by
          intro r c hnotanchor _ hnotdot
          apply hsun
          intro t ht
          by_cases hr : r = R
          · refine Or.inr ?_
            intro hcontra
            by_cases htl : t = loc
            · subst htl
              rw [hc0 loc, hanchor_cell] at hcontra
              rcases hnotanchor with h1 | h1
              · exact h1 hr
              · exact h1 hcontra
            · apply hnotdot
              rw [hr, hcontra, hc0 t]
              exact hother_dot t ht htl
          · exact Or.inl hr
        have hcount' : i + 1 + rest.length = 6 := by
          simp only [List.length_cons] at hcount
          omega
        have hentries' : ∀ e ∈ (gs.add_word sw
            (hor_main_write_loop R C loc 0 sw g).2 false
              "horizontal").game_words,
            EntryOK (hor_main_write_loop R C loc 0 sw g).1 e := by
          intro e he
          simp only [GameState.add_word] at he
          rcases mem_dict_insert he with heq | hold
          · subst heq
            refine ⟨rfl, by simpa using hslen, hswdot, ?_⟩
            intro k hk
            simp only at hk ⊢
            have hpk := hspos k hk
            rw [hc0 k] at hpk
            rw [hpk]
            refine ⟨hbt k hk, ?_⟩
            by_cases hkloc : k = loc
            · subst hkloc
              rw [hanchor_cell, hanchor_new, ← hlocget]
              exact toLower_toUpper _
            · rw [hwritten k hk hkloc]
          · obtain ⟨hw1, hw2, hw3, hw4⟩ := hentries e hold
            refine ⟨hw1, hw2, hw3, ?_⟩
            intro k hk
            obtain ⟨hkb, hklow⟩ := hw4 k hk
            refine ⟨hkb, ?_⟩
            set X := e.2.positions.getD k (0, 0) with hXdef
            have hlne := entry_letter_ne_dot hk hw3
            have hXdot : g.get_cell X.1 X.2 ≠ '.' := by
              intro hcontra
              apply toLower_ne_dot hlne
              rw [← hklow, hcontra]
              rfl
            by_cases hXanchor : X.1 = R ∧ X.2 = C
            · have h1 : (hor_main_write_loop R C loc 0 sw g).1.get_cell X.1 X.2 =
                  g.get_cell X.1 X.2 := by
                rw [hXanchor.1, hXanchor.2, hanchor_new, hanchor_old]
              rw [h1]
              exact hklow
            · have h1 : (hor_main_write_loop R C loc 0 sw g).1.get_cell X.1 X.2 =
                  g.get_cell X.1 X.2 := by
                apply hpreserve X.1 X.2 ?_ (fun _ => trivial) hXdot
                by_cases hx1 : X.1 = R
                · refine Or.inr ?_
                  intro hx2
                  exact hXanchor ⟨hx1, hx2⟩
                · exact Or.inl hx1
              rw [h1]
              exact hklow
        have hdiag' : ∀ k : ℕ, k < 6 →
            (hor_main_write_loop R C loc 0 sw g).1.get_cell
              (2 + 2 * (k : Int)) (7 + 2 * (k : Int)) =
              Char.toUpper (mw.getD k ' ') := by
          intro k hk
          by_cases hki : k = i
          · subst hki
            rw [show (2 + 2 * (k : Int)) = R by rw [hR],
              show (7 + 2 * (k : Int)) = C by rw [hC]]
            rw [hanchor_new, hmli]
          · have h1 : (hor_main_write_loop R C loc 0 sw g).1.get_cell
                (2 + 2 * (k : Int)) (7 + 2 * (k : Int)) =
                g.get_cell (2 + 2 * (k : Int)) (7 + 2 * (k : Int)) := by
              apply hsun
              intro t ht
              refine Or.inl ?_
              rw [hR]
              intro hcontra
              have hik : (k : Int) = (i : Int) := by omega
              exact hki (by omega)
            rw [h1]
            exact hdiag k hk
        have hregion' : ∀ r c : Int, 0 ≤ r → r < 15 → 0 ≤ c → c < 25 →
            (∀ k : ℕ, k < 6 → ¬(r = 2 + 2 * (k : Int) ∧ c = 7 + 2 * (k : Int))) →
            (∀ k : ℕ, k < i + 1 → r ≠ 2 + 2 * (k : Int)) →
            (hor_main_write_loop R C loc 0 sw g).1.get_cell r c = '.' := by
          intro r c h1 h2 h3 h4 h5 h6
          have hrow : r ≠ R := by
            rw [hR]
            exact h6 i (by omega)
          have hold2 : (hor_main_write_loop R C loc 0 sw g).1.get_cell r c =
              g.get_cell r c := by
            apply hsun
            intro t ht
            exact Or.inl hrow
          rw [hold2]
          exact hregion r c h1 h2 h3 h4 h5 (fun k hk => h6 k (by omega))
        have hpool' : ∀ w ∈ pre ++ post,
            ('.' : Char) ∉ w ∧ 1 ≤ w.length ∧ w.length ≤ 6 := by
          intro w hw
          apply hpool
          rw [hsplit]
          rcases List.mem_append.mp hw with hh | hh
          · exact List.mem_append_left _ hh
          · exact List.mem_append_right _ (List.mem_cons_of_mem _ hh)
        obtain ⟨ihInv, ihPool⟩ := ih (i + 1) (pre ++ post)
          (hor_main_write_loop R C loc 0 sw g).1
          (gs.add_word sw (hor_main_write_loop R C loc 0 sw g).2 false
            "horizontal")
          hdrop'.symm hcount' hswf hentries' hdiag' hregion' hpool'
        refine ⟨ihInv, ?_⟩
        intro w hw
        have hmem := ihPool w hw
        rw [hsplit]
        rcases List.mem_append.mp hmem with hh | hh
        · exact List.mem_append_left _ hh
        · exact List.mem_append_right _ (List.mem_cons_of_mem _ hh)

theorem getD_map_lt {α β : Type} (f : α → β) {l : List α} {k : ℕ}
    (hk : k < l.length) (d : α) (d2 : β) :
    (l.map f).getD k d2 = f (l.getD k d) := by
  induction l generalizing k with
  | nil => simp at hk
  | cons a rest ih =>
      cases k with
      | zero => rfl
      | succ j =>
          simp only [List.map_cons, List.getD_cons_succ]
          exact ih (by simpa using hk)

set_option maxHeartbeats 1000000 in
theorem generate_level_inv (main_word : List Char)
    (subwords : List (List Char)) (rng : List ℕ) (grid : GameGrid)
    (st : GameState) (hlen : main_word.length = 6)
    (hmdot : ('.' : Char) ∉ main_word)
    (hpool : ∀ w ∈ subwords, ('.' : Char) ∉ w ∧ 1 ≤ w.length ∧ w.length ≤ 6)
    (hrun : generate_level main_word subwords rng = some (grid, st)) :
    LevelInv grid st := by
  obtain ⟨hdwf, hdlen, hdpos, hdun, hdwr⟩ :=
    diag_write_loop_spec main_word 0 make_grid WFGrid_make_grid
  have hcellr : ∀ k : ℕ, config.center_row + (((0 : ℕ) : Int) + (k : Int)) * 2 =
      2 + 2 * (k : Int) := by
    intro k
    rw [center_row_eq]
    push_cast
    ring
  have hcellc : ∀ k : ℕ, config.center_col + (((0 : ℕ) : Int) + (k : Int)) * 2 =
      7 + 2 * (k : Int) := by
    intro k
    rw [center_col_eq]
    push_cast
    ring
  have hbk : ∀ k : ℕ, k < 6 → in_grid_bounds (2 + 2 * (k : Int), 7 + 2 * (k : Int)) := by
    intro k hk
    refine ⟨?_, ?_, ?_, ?_⟩ <;>
      simp only [config_rows_eq, config_columns_eq] <;> omega
  have hdiag1 : ∀ k : ℕ, k < 6 →
      (diag_write_loop 0 main_word make_grid).1.get_cell
        (2 + 2 * (k : Int)) (7 + 2 * (k : Int)) =
        Char.toUpper (main_word.getD k ' ') := by
    intro k hk
    have := hdwr k (by omega)
    rw [hcellr k, hcellc k] at this
    exact this (hbk k hk)
  have hregion1 : ∀ r c : Int, 0 ≤ r → r < 15 → 0 ≤ c → c < 25 →
      (∀ k : ℕ, k < 6 → ¬(r = 2 + 2 * (k : Int) ∧ c = 7 + 2 * (k : Int))) →
      (∀ k : ℕ, k < 0 → r ≠ 2 + 2 * (k : Int)) →
      (diag_write_loop 0 main_word make_grid).1.get_cell r c = '.' := by
    intro r c h1 h2 h3 h4 h5 _
    have huntouched : (diag_write_loop 0 main_word make_grid).1.get_cell r c =
        make_grid.get_cell r c := by
      apply hdun
      intro t ht
      have h5t := h5 t (by omega)
      rw [hcellr t, hcellc t]
      by_cases hr : r = 2 + 2 * (t : Int)
      · refine Or.inr ?_
        intro hc
        exact h5t ⟨hr, hc⟩
      · exact Or.inl hr
    rw [huntouched]
    exact make_grid_get_cell r c
  have hUdot : ('.' : Char) ∉ main_word.map Char.toUpper := by
    intro hmem
    obtain ⟨c, hc, hcu⟩ := List.mem_map.mp hmem
    exact hmdot ((toUpper_eq_dot.mp hcu) ▸ hc)
  have hent1 : ∀ e ∈ (dict_insert (main_word.map Char.toUpper)
      { word := main_word.map Char.toUpper,
        positions := (diag_write_loop 0 main_word make_grid).2,
        is_main_word := true, direction := "diagonal" } []),
      EntryOK (diag_write_loop 0 main_word make_grid).1 e := by
    intro e he
    rcases mem_dict_insert he with heq | habs
    · subst heq
      refine ⟨rfl, by simpa using hdlen, hUdot, ?_⟩
      intro k hk
      simp only [List.length_map] at hk
      simp only
      rw [hdpos k (by omega), hcellr k, hcellc k]
      refine ⟨hbk k (by omega), ?_⟩
      have hwr := hdwr k (by omega)
      rw [hcellr k, hcellc k] at hwr
      rw [hwr (hbk k (by omega))]
      rw [getD_map_lt Char.toUpper (by omega) ' ' ' ']
    · simp at habs
  -- assemble the pipeline
  have hpooldot : ∀ w ∈ subwords, ('.' : Char) ∉ w :=
    fun w hw => (hpool w hw).1
  simp only [generate_level, main_word_diagonal, place_main_subwords,
    GameState.add_word, place_remaining_subwords_until_20] at hrun
  set G1 := (diag_write_loop 0 main_word make_grid).1 with hG1
  set GS1 : GameState :=
    { main_word := main_word, subwords := subwords,
      game_words := dict_insert (main_word.map Char.toUpper)
        { word := main_word.map Char.toUpper,
          positions := (diag_write_loop 0 main_word make_grid).2,
          is_main_word := true, direction := "diagonal" } [] } with hGS1
  set P2 := place_main_subwords_loop 0 main_word subwords G1 GS1 with hP2
  obtain ⟨hinv2, hsub2⟩ := place_main_subwords_loop_inv main_word hlen
    main_word 0 subwords G1 GS1 (by simp) (by omega) hdwf
    (by rw [hGS1]; exact hent1) hdiag1 hregion1 hpool
  rw [← hP2] at hinv2 hsub2
  set HW := horizontal_words P2.2.2 with hHW
  by_cases hw2 : HW = []
  · rw [if_pos hw2] at hrun
    cases hrun
  · rw [if_neg hw2] at hrun
    set W1 := HW.getD (rng.headD 0 % HW.length) [] with hW1
    set V3 := place_vertical_subwords W1 P2.1 P2.2.1 P2.2.2 0 rng.tail with hV3
    obtain ⟨hinv3, hsub3⟩ := place_vertical_subwords_inv W1 P2.1 P2.2.1 P2.2.2
      0 rng.tail hinv2 (fun sw hsw => hpooldot sw (hsub2 sw hsw))
    rw [← hV3] at hinv3 hsub3
    set B4 := bootstrap_loop (config.max_attempts / 5) V3.1 V3.2.1 V3.2.2.2.1
      V3.2.2.1 V3.2.2.2.2 0 with hB4
    obtain ⟨hinv4, hsub4⟩ := bootstrap_loop_inv (config.max_attempts / 5)
      V3.1 V3.2.1 V3.2.2.2.1 V3.2.2.1 V3.2.2.2.2 0 hinv3
      (fun sw hsw => hpooldot sw (hsub2 sw (hsub3 sw hsw)))
    rw [← hB4] at hinv4 hsub4
    have hinv5 := fill_loop_inv config.max_attempts B4.1 B4.2.2.1 B4.2.1
      B4.2.2.2.1 0
      (if B4.2.2.2.2.1.headD 0 % 2 = 0 then "vertical" else "horizontal")
      B4.2.2.2.2.1.tail 0 hinv4
      (fun sw hsw => hpooldot sw (hsub2 sw (hsub3 sw (hsub4 sw hsw))))
    rw [Option.some.injEq, Prod.mk.injEq] at hrun
    rw [← hrun.1, ← hrun.2]
    exact hinv5

/-! ### Claim C2 -/

theorem LevelInv_consistent_ci {g : GameGrid} {st : GameState}
    (h : LevelInv g st) : stored_words_consistent_ci st := by
  constructor
  · intro e he
    obtain ⟨hw1, hw2, _, _⟩ := h.2 e he
    rw [hw1]
    exact hw2
  · intro e1 he1 e2 he2 hne k1 hk1 k2 hk2 hpos
    obtain ⟨ha1, ha2, ha3, ha4⟩ := h.2 e1 he1
    obtain ⟨hb1, hb2, hb3, hb4⟩ := h.2 e2 he2
    have hk1' : k1 < e1.1.length := by rw [← ha2]; exact hk1
    have hk2' : k2 < e2.1.length := by rw [← hb2]; exact hk2
    obtain ⟨_, hlow1⟩ := ha4 k1 hk1'
    obtain ⟨_, hlow2⟩ := hb4 k2 hk2'
    rw [ha1, hb1]
    rw [← hlow1, ← hlow2, hpos]

theorem pick_valid_main_word_eq :
    ∀ {six wl : List (List Char)} {m : List Char} {subs : List (List Char)},
      pick_valid_main_word six wl = some (m, subs) →
      m ∈ six ∧ subs = get_subsets m wl := by
  intro six
  induction six with
  | nil =>
      intro wl m subs h
      simp [pick_valid_main_word] at h
  | cons w rest ih =>
      intro wl m subs h
      simp only [pick_valid_main_word] at h
      split at h
      · rw [Option.some.injEq, Prod.mk.injEq] at h
        obtain ⟨h1, h2⟩ := h
        subst h1
        exact ⟨List.mem_cons_self _ _, h2.symm⟩
      · obtain ⟨h1, h2⟩ := ih h
        exact ⟨List.mem_cons_of_mem _ h1, h2⟩

theorem mem_py_strip {c : Char} {w : List Char} (h : c ∈ py_strip w) : c ∈ w := by
  unfold py_strip at h
  rw [List.mem_reverse] at h
  have h1 := (List.dropWhile_sublist _).mem h
  rw [List.mem_reverse] at h1
  exact (List.dropWhile_sublist _).mem h1

theorem mem_six_letter_wordlist {wl : List (List Char)} {w : List Char}
    (h : w ∈ six_letter_wordlist wl) :
    w.length = 6 ∧ ∃ w0 ∈ wl, w = py_strip w0 := by
  unfold six_letter_wordlist at h
  obtain ⟨w0, hw0, hstrip⟩ := List.mem_map.mp h
  obtain ⟨hmem, hcond⟩ := List.mem_filter.mp hw0
  rw [decide_eq_true_eq] at hcond
  exact ⟨by rw [← hstrip]; exact hcond, ⟨w0, hmem, hstrip.symm⟩⟩

theorem mem_get_subsets {m : List Char} {wl : List (List Char)} {w : List Char}
    (h : w ∈ get_subsets m wl) :
    1 ≤ w.length ∧ w.length ≤ 6 ∧ ∃ w0 ∈ wl, w = py_strip w0 := by
  unfold get_subsets at h
  obtain ⟨hmem, _⟩ := List.mem_filter.mp h
  obtain ⟨w0, hw0, hstrip⟩ := List.mem_map.mp hmem
  obtain ⟨hmem0, hcond⟩ := List.mem_filter.mp hw0
  rw [decide_eq_true_eq] at hcond
  refine ⟨?_, ?_, ⟨w0, hmem0, hstrip.symm⟩⟩
  · rw [← hstrip]; omega
  · rw [← hstrip]; omega

/-- Claim C2 (amended): after a full generation cycle of `play_game` — main
word and sub-word pool produced by `pick_valid_main_word` over the shuffled
six-letter candidates, pool shuffled, level accepted only when at least 21
words are stored — provided no word of the word list contains the sentinel
character `'.'`, every stored `GameWord` satisfies
`len(positions) == len(word)`, and any two distinct stored words whose
position sequences share a cell assign that cell the same letter up to ASCII
case (the main word is stored uppercase while crossing sub-words are stored
lowercase, so exact character equality fails at main-word crossings). -/
theorem C2_generation_consistent (wordlist six' subs' : List (List Char))
    (m : List Char) (subs : List (List Char)) (rng : List ℕ)
    (grid : GameGrid) (st : GameState)
    (hdot : ∀ w ∈ wordlist, ('.' : Char) ∉ w)
    (hsix : six'.Perm (six_letter_wordlist wordlist))
    (hpick : pick_valid_main_word six' wordlist = some (m, subs))
    (hshuf : subs'.Perm subs)
    (hrun : generate_level m subs' rng = some (grid, st))
    (hacc : 21 ≤ st.game_words.length) :
    stored_words_consistent_ci st := by
  obtain ⟨hm_mem, hsubs_eq⟩ := pick_valid_main_word_eq hpick
  have hm_six : m ∈ six_letter_wordlist wordlist := hsix.mem_iff.mp hm_mem
  obtain ⟨hmlen, w0, hw0, hstrip0⟩ := mem_six_letter_wordlist hm_six
  have hmdot : ('.' : Char) ∉ m := by
    intro hc
    exact hdot w0 hw0 (mem_py_strip (hstrip0 ▸ hc))
  have hpool : ∀ w ∈ subs', ('.' : Char) ∉ w ∧ 1 ≤ w.length ∧ w.length ≤ 6 := by
    intro w hw
    have hw2 : w ∈ subs := hshuf.mem_iff.mp hw
    rw [hsubs_eq] at hw2
    obtain ⟨h1, h2, w1, hw1, hstrip1⟩ := mem_get_subsets hw2
    refine ⟨?_, h1, h2⟩
    intro hc
    exact hdot w1 hw1 (mem_py_strip (hstrip1 ▸ hc))
  exact LevelInv_consistent_ci
    (generate_level_inv m subs' rng grid st hmlen hmdot hpool hrun)

/-- Claim C2 as stated fails on the code: in the concrete accepted
generation run (25 stored words), the main word is stored as `"MASTER"` and
the crossing sub-word as `"mas"`; both occupy cell `(2, 7)`, where the main
word assigns `'M'` and the sub-word assigns `'m'` — different characters. -/
theorem C2_counterexample :
    pick_valid_main_word (six_letter_wordlist C2_wordlist) C2_wordlist =
      some ("master".toList, C2_subs) ∧
    generate_level "master".toList C2_subs C2_rng = some (C2_grid, C2_state) ∧
    21 ≤ C2_state.game_words.length ∧
    ¬ stored_words_exact C2_state := by
  refine ⟨by decide, C2_run_eq, by decide, ?_⟩
  intro h
  have hm : ("MASTER".toList, C2_mainGW) ∈ C2_state.game_words := by decide
  have hs : ("mas".toList, C2_masGW) ∈ C2_state.game_words := by decide
  have hcontra := h.2 _ hm _ hs (by decide) 0 (by decide) 0 (by decide)
    (by decide)
  exact absurd hcontra (by decide)

theorem C2_witness :
    (∀ w ∈ C2_wordlist, ('.' : Char) ∉ w) ∧
    pick_valid_main_word (six_letter_wordlist C2_wordlist) C2_wordlist =
      some ("master".toList, C2_subs) ∧
    generate_level "master".toList C2_subs C2_rng = some (C2_grid, C2_state) ∧
    21 ≤ C2_state.game_words.length ∧
    stored_words_consistent_ci C2_state :=
  ⟨by decide, by decide, C2_run_eq, by decide,
    C2_generation_consistent C2_wordlist (six_letter_wordlist C2_wordlist)
      C2_subs "master".toList C2_subs C2_rng C2_grid C2_state (by decide)
      (List.Perm.refl _) (by decide) (List.Perm.refl _) C2_run_eq (by decide)⟩

/-! ### Claim C3 -/

/-- Claim C3: for every 6-letter word `w` placed by `main_word_diagonal` on a
well-formed 15×25 grid, the recorded positions for `w.upper()` form the
strictly increasing arithmetic sequence of length 6 with step `(+2, +2)`
starting at `(center_row, center_col) = (2, 7)`; each letter is written
uppercase onto the grid, and the word is stored with `is_main_word = true`
and direction `"diagonal"`. -/
theorem C3_main_word_diagonal (w : List Char) (grid : GameGrid)
    (gs : GameState) (hwf : WFGrid grid) (hlen : w.length = 6) :
    config.center_row = 2 ∧ config.center_col = 7 ∧
    dict_get (w.map Char.toUpper) (main_word_diagonal w grid gs).2.game_words =
      some { word := w.map Char.toUpper,
             positions := [((2 : Int), (7 : Int)), (4, 9), (6, 11), (8, 13),
               (10, 15), (12, 17)],
             is_main_word := true, direction := "diagonal" } ∧
    (∀ i : ℕ, i < 6 → (main_word_diagonal w grid gs).1.get_cell
      (2 + 2 * (i : Int)) (7 + 2 * (i : Int)) = Char.toUpper (w.getD i ' ')) := by
  obtain ⟨hdwf, hdlen, hdpos, hdun, hdwr⟩ := diag_write_loop_spec w 0 grid hwf
  have hcellr : ∀ k : ℕ, config.center_row + (((0 : ℕ) : Int) + (k : Int)) * 2 =
      2 + 2 * (k : Int) := by
    intro k
    rw [center_row_eq]
    push_cast
    ring
  have hcellc : ∀ k : ℕ, config.center_col + (((0 : ℕ) : Int) + (k : Int)) * 2 =
      7 + 2 * (k : Int) := by
    intro k
    rw [center_col_eq]
    push_cast
    ring
  have hbk : ∀ k : ℕ, k < 6 →
      in_grid_bounds (2 + 2 * (k : Int), 7 + 2 * (k : Int)) := by
    intro k hk
    refine ⟨?_, ?_, ?_, ?_⟩ <;>
      simp only [config_rows_eq, config_columns_eq] <;> omega
  have hposlist : (diag_write_loop 0 w grid).2 =
      [((2 : Int), (7 : Int)), (4, 9), (6, 11), (8, 13), (10, 15), (12, 17)] := by
    apply List.ext_getElem
    · rw [hdlen, hlen]
      rfl
    · intro i h1 h2
      have hi6 : i < 6 := by
        rw [hdlen, hlen] at h1
        exact h1
      have hgd := hdpos i (by omega)
      rw [hcellr i, hcellc i] at hgd
      rw [← List.getD_eq_getElem _ (0, 0) h1, ← List.getD_eq_getElem _ ((0 : Int), (0 : Int)) h2]
      rw [hgd]
      interval_cases i <;> decide
  refine ⟨center_row_eq, center_col_eq, ?_, ?_⟩
  · simp only [main_word_diagonal, GameState.add_word]
    rw [dict_get_insert_self]
    rw [hposlist]
  · intro i hi
    simp only [main_word_diagonal]
    have := hdwr i (by omega)
    rw [hcellr i, hcellc i] at this
    exact this (hbk i hi)

theorem C3_witness : WFGrid make_grid ∧ ("master".toList.length = 6) ∧
    dict_get ("master".toList.map Char.toUpper)
      (main_word_diagonal "master".toList make_grid
        { main_word := [], subwords := [] }).2.game_words =
      some { word := "master".toList.map Char.toUpper,
             positions := [((2 : Int), (7 : Int)), (4, 9), (6, 11), (8, 13),
               (10, 15), (12, 17)],
             is_main_word := true, direction := "diagonal" } := by
  refine ⟨WFGrid_make_grid, by decide, ?_⟩
  exact (C3_main_word_diagonal "master".toList make_grid
    { main_word := [], subwords := [] } WFGrid_make_grid (by decide)).2.2.1

/-! ### Claim C7 -/

theorem bootstrap_loop_bound (fuel : ℕ) :
    ∀ (grid : GameGrid) (gs : GameState) (subwords : List (List Char))
      (vcount : ℕ) (rng : List ℕ) (attempts : ℕ),
      attempts ≤
        (bootstrap_loop fuel grid gs subwords vcount rng attempts).2.2.2.2.2 ∧
      (bootstrap_loop fuel grid gs subwords vcount rng attempts).2.2.2.2.2 ≤
        attempts + fuel ∧
      ((bootstrap_loop fuel grid gs subwords vcount rng attempts).2.2.2.2.2 <
          attempts + fuel →
        config.min_vertical_words ≤
          (bootstrap_loop fuel grid gs subwords vcount rng attempts).2.2.2.1 ∨
        horizontal_words
          (bootstrap_loop fuel grid gs subwords vcount rng attempts).2.1 = []) := by
  induction fuel with
  | zero =>
      intro grid gs subwords vcount rng attempts
      exact ⟨le_refl _, show attempts ≤ attempts + 0 by omega,
        fun h => absurd h (show ¬ attempts < attempts + 0 by omega)⟩
  | succ fuel ih =>
      intro grid gs subwords vcount rng attempts
      by_cases hv : vcount < config.min_vertical_words
      · by_cases hw : horizontal_words gs = []
        · have hstep : bootstrap_loop (fuel + 1) grid gs subwords vcount rng
              attempts = (grid, gs, subwords, vcount, rng, attempts) := by
            simp only [bootstrap_loop]
            rw [if_pos hv, if_pos hw]
          rw [hstep]
          exact ⟨le_refl _, show attempts ≤ attempts + (fuel + 1) by omega,
            fun _ => Or.inr hw⟩
        · have hstep : bootstrap_loop (fuel + 1) grid gs subwords vcount rng
              attempts =
              bootstrap_loop fuel
                (place_vertical_subwords
                  ((horizontal_words gs).getD
                    (rng.headD 0 % (horizontal_words gs).length) [])
                  subwords grid gs vcount rng.tail).1
                (place_vertical_subwords
                  ((horizontal_words gs).getD
                    (rng.headD 0 % (horizontal_words gs).length) [])
                  subwords grid gs vcount rng.tail).2.1
                (place_vertical_subwords
                  ((horizontal_words gs).getD
                    (rng.headD 0 % (horizontal_words gs).length) [])
                  subwords grid gs vcount rng.tail).2.2.2.1
                (place_vertical_subwords
                  ((horizontal_words gs).getD
                    (rng.headD 0 % (horizontal_words gs).length) [])
                  subwords grid gs vcount rng.tail).2.2.1
                (place_vertical_subwords
                  ((horizontal_words gs).getD
                    (rng.headD 0 % (horizontal_words gs).length) [])
                  subwords grid gs vcount rng.tail).2.2.2.2
                (attempts + 1) := by
            simp only [bootstrap_loop]
            rw [if_pos hv, if_neg hw]
          rw [hstep]
          obtain ⟨h1, h2, h3⟩ := ih
            (place_vertical_subwords
              ((horizontal_words gs).getD
                (rng.headD 0 % (horizontal_words gs).length) [])
              subwords grid gs vcount rng.tail).1
            (place_vertical_subwords
              ((horizontal_words gs).getD
                (rng.headD 0 % (horizontal_words gs).length) [])
              subwords grid gs vcount rng.tail).2.1
            (place_vertical_subwords
              ((horizontal_words gs).getD
                (rng.headD 0 % (horizontal_words gs).length) [])
              subwords grid gs vcount rng.tail).2.2.2.1
            (place_vertical_subwords
              ((horizontal_words gs).getD
                (rng.headD 0 % (horizontal_words gs).length) [])
              subwords grid gs vcount rng.tail).2.2.1
            (place_vertical_subwords
              ((horizontal_words gs).getD
                (rng.headD 0 % (horizontal_words gs).length) [])
              subwords grid gs vcount rng.tail).2.2.2.2
            (attempts + 1)
          exact ⟨by omega, by omega, fun h => h3 (by omega)⟩
      · have hstep : bootstrap_loop (fuel + 1) grid gs subwords vcount rng
            attempts = (grid, gs, subwords, vcount, rng, attempts) := by
          simp only [bootstrap_loop]
          rw [if_neg hv]
        rw [hstep]
        exact ⟨le_refl _, show attempts ≤ attempts + (fuel + 1) by omega,
          fun _ => Or.inl (show config.min_vertical_words ≤ vcount by omega)⟩

theorem fill_loop_bound (fuel : ℕ) :
    ∀ (grid : GameGrid) (subwords : List (List Char)) (gs : GameState)
      (vcount hcount : ℕ) (direction : String) (rng : List ℕ) (attempts : ℕ),
      (direction = "vertical" ∨ direction = "horizontal") →
      attempts ≤ (fill_loop fuel grid subwords gs vcount hcount direction rng
        attempts).2.2.2.2.2.2.2 ∧
      (fill_loop fuel grid subwords gs vcount hcount direction rng
        attempts).2.2.2.2.2.2.2 ≤ attempts + fuel ∧
      ((fill_loop fuel grid subwords gs vcount hcount direction rng
          attempts).2.2.2.2.2.2.2 < attempts + fuel →
        config.max_total_words ≤
          (fill_loop fuel grid subwords gs vcount hcount direction rng
            attempts).2.2.2.1 +
          (fill_loop fuel grid subwords gs vcount hcount direction rng
            attempts).2.2.2.2.1 + 7 ∨
        ((fill_loop fuel grid subwords gs vcount hcount direction rng
            attempts).2.2.2.2.2.1 = "vertical" ∧
          horizontal_words (fill_loop fuel grid subwords gs vcount hcount
            direction rng attempts).2.1 = []) ∨
        ((fill_loop fuel grid subwords gs vcount hcount direction rng
            attempts).2.2.2.2.2.1 = "horizontal" ∧
          vertical_words (fill_loop fuel grid subwords gs vcount hcount
            direction rng attempts).2.1 = [])) := by
  induction fuel with
  | zero =>
      intro grid subwords gs vcount hcount direction rng attempts _
      exact ⟨le_refl _, show attempts ≤ attempts + 0 by omega,
        fun h => absurd h (show ¬ attempts < attempts + 0 by omega)⟩
  | succ fuel ih =>
      intro grid subwords gs vcount hcount direction rng attempts hdir
      by_cases hcnt : vcount + hcount + 7 < config.max_total_words
      · by_cases hd1 : direction = "vertical" ∧ horizontal_words gs ≠ []
        · set P := place_vertical_subwords
            ((horizontal_words gs).getD
              (rng.headD 0 % (horizontal_words gs).length) [])
            subwords grid gs vcount rng.tail with hP
          have hstep : fill_loop (fuel + 1) grid subwords gs vcount hcount
              direction rng attempts =
              fill_loop fuel P.1 P.2.2.2.1 P.2.1 P.2.2.1 hcount "horizontal"
                P.2.2.2.2 (attempts + 1) := by
            simp only [fill_loop]
            rw [if_pos hcnt, if_pos hd1]
          rw [hstep]
          obtain ⟨h1, h2, h3⟩ := ih P.1 P.2.2.2.1 P.2.1 P.2.2.1 hcount
            "horizontal" P.2.2.2.2 (attempts + 1) (Or.inr rfl)
          exact ⟨by omega, by omega, fun h => h3 (by omega)⟩
        · by_cases hd2 : direction = "horizontal" ∧ vertical_words gs ≠ []
          · set Q := place_horizontal_subwords
              ((vertical_words gs).getD
                (rng.headD 0 % (vertical_words gs).length) [])
              subwords grid gs hcount rng.tail with hQ
            have hstep : fill_loop (fuel + 1) grid subwords gs vcount hcount
                direction rng attempts =
                fill_loop fuel Q.1 Q.2.2.2.1 Q.2.1 vcount Q.2.2.1 "vertical"
                  Q.2.2.2.2 (attempts + 1) := by
              simp only [fill_loop]
              rw [if_pos hcnt, if_neg hd1, if_pos hd2]
            rw [hstep]
            obtain ⟨h1, h2, h3⟩ := ih Q.1 Q.2.2.2.1 Q.2.1 vcount Q.2.2.1
              "vertical" Q.2.2.2.2 (attempts + 1) (Or.inl rfl)
            exact ⟨by omega, by omega, fun h => h3 (by omega)⟩
          · have hstep : fill_loop (fuel + 1) grid subwords gs vcount hcount
                direction rng attempts =
                (grid, gs, subwords, vcount, hcount, direction, rng,
                  attempts) := by
              simp only [fill_loop]
              rw [if_pos hcnt, if_neg hd1, if_neg hd2]
            rw [hstep]
            refine ⟨le_refl _, show attempts ≤ attempts + (fuel + 1) by omega,
              fun _ => ?_⟩
            rcases hdir with hv | hh
            · refine Or.inr (Or.inl ⟨hv, ?_⟩)
              by_contra hne
              exact hd1 ⟨hv, hne⟩
            · refine Or.inr (Or.inr ⟨hh, ?_⟩)
              by_contra hne
              exact hd2 ⟨hh, hne⟩
      · have hstep : fill_loop (fuel + 1) grid subwords gs vcount hcount
            direction rng attempts =
            (grid, gs, subwords, vcount, hcount, direction, rng, attempts) := by
          simp only [fill_loop]
          rw [if_neg hcnt]
        rw [hstep]
        exact ⟨le_refl _, show attempts ≤ attempts + (fuel + 1) by omega,
          fun _ => Or.inl
            (show config.max_total_words ≤ vcount + hcount + 7 by omega)⟩

/-- Claim C7: within one generation attempt the bootstrap-vertical pass and
the fill pass are bounded by two independent counters: the bootstrap loop
executes at most `max_attempts // 5 = 20` iterations, stopping earlier only
once `min_vertical_words = 4` vertical words exist or no horizontal word
remains to cross, and the fill loop of
`place_remaining_subwords_until_20` executes at most `max_attempts = 100`
iterations, stopping earlier only when the running count
`vertical + horizontal + 7` reaches `max_total_words = 25` or no placed word
of the required crossing direction exists; both passes always terminate
(they are total functions of their fuel). -/
theorem C7_bounded_loops :
    config.max_attempts / 5 = 20 ∧ config.max_attempts = 100 ∧
    (∀ (grid : GameGrid) (gs : GameState) (subwords : List (List Char))
        (vcount : ℕ) (rng : List ℕ),
      (bootstrap_loop (config.max_attempts / 5) grid gs subwords vcount rng
        0).2.2.2.2.2 ≤ 20 ∧
      ((bootstrap_loop (config.max_attempts / 5) grid gs subwords vcount rng
          0).2.2.2.2.2 < 20 →
        config.min_vertical_words ≤
          (bootstrap_loop (config.max_attempts / 5) grid gs subwords vcount
            rng 0).2.2.2.1 ∨
        horizontal_words (bootstrap_loop (config.max_attempts / 5) grid gs
          subwords vcount rng 0).2.1 = [])) ∧
    (∀ (grid : GameGrid) (subwords : List (List Char)) (gs : GameState)
        (vcount hcount : ℕ) (rng : List ℕ),
      (place_remaining_subwords_until_20 grid subwords gs vcount hcount
        rng).2.2.2.2.2.2.2 ≤ 100 ∧
      ((place_remaining_subwords_until_20 grid subwords gs vcount hcount
          rng).2.2.2.2.2.2.2 < 100 →
        config.max_total_words ≤
          (place_remaining_subwords_until_20 grid subwords gs vcount hcount
            rng).2.2.2.1 +
          (place_remaining_subwords_until_20 grid subwords gs vcount hcount
            rng).2.2.2.2.1 + 7 ∨
        ((place_remaining_subwords_until_20 grid subwords gs vcount hcount
            rng).2.2.2.2.2.1 = "vertical" ∧
          horizontal_words (place_remaining_subwords_until_20 grid subwords gs
            vcount hcount rng).2.1 = []) ∨
        ((place_remaining_subwords_until_20 grid subwords gs vcount hcount
            rng).2.2.2.2.2.1 = "horizontal" ∧
          vertical_words (place_remaining_subwords_until_20 grid subwords gs
            vcount hcount rng).2.1 = []))) := by
  refine ⟨rfl, rfl, ?_, ?_⟩
  · intro grid gs subwords vcount rng
    obtain ⟨h1, h2, h3⟩ :=
      bootstrap_loop_bound (config.max_attempts / 5) grid gs subwords vcount
        rng 0
    have hc : config.max_attempts / 5 = 20 := rfl
    exact ⟨by omega, fun h => h3 (by omega)⟩
  · intro grid subwords gs vcount hcount rng
    simp only [place_remaining_subwords_until_20]
    obtain ⟨h1, h2, h3⟩ := fill_loop_bound config.max_attempts grid subwords gs
      vcount hcount
      (if rng.headD 0 % 2 = 0 then "vertical" else "horizontal") rng.tail 0
      (by split <;> simp)
    have hc : config.max_attempts = 100 := rfl
    exact ⟨by omega, fun h => h3 (by omega)⟩

theorem C7_witness :
    ((bootstrap_loop (config.max_attempts / 5) make_grid
      { main_word := [], subwords := [] } [] 0 [] 0).2.2.2.2.2 < 20) ∧
    (config.min_vertical_words ≤
      (bootstrap_loop (config.max_attempts / 5) make_grid
        { main_word := [], subwords := [] } [] 0 [] 0).2.2.2.1 ∨
      horizontal_words (bootstrap_loop (config.max_attempts / 5) make_grid
        { main_word := [], subwords := [] } [] 0 [] 0).2.1 = []) ∧
    ((place_remaining_subwords_until_20 make_grid []
      { main_word := [], subwords := [] } 0 0 []).2.2.2.2.2.2.2 < 100) ∧
    (config.max_total_words ≤
      (place_remaining_subwords_until_20 make_grid []
        { main_word := [], subwords := [] } 0 0 []).2.2.2.1 +
      (place_remaining_subwords_until_20 make_grid []
        { main_word := [], subwords := [] } 0 0 []).2.2.2.2.1 + 7 ∨
      ((place_remaining_subwords_until_20 make_grid []
          { main_word := [], subwords := [] } 0 0 []).2.2.2.2.2.1 = "vertical" ∧
        horizontal_words (place_remaining_subwords_until_20 make_grid []
          { main_word := [], subwords := [] } 0 0 []).2.1 = []) ∨
      ((place_remaining_subwords_until_20 make_grid []
          { main_word := [], subwords := [] } 0 0 []).2.2.2.2.2.1 = "horizontal" ∧
        vertical_words (place_remaining_subwords_until_20 make_grid []
          { main_word := [], subwords := [] } 0 0 []).2.1 = [])) := by
  refine ⟨by decide, ?_, by decide, ?_⟩
  · exact (C7_bounded_loops.2.2.1 make_grid
      { main_word := [], subwords := [] } [] 0 []).2 (by decide)
  · exact (C7_bounded_loops.2.2.2 make_grid []
      { main_word := [], subwords := [] } 0 0 []).2 (by decide)

/-! ### Claim C10 -/

set_option maxRecDepth 1000000 in
/-- Claim C10: `place_main_subwords` appends a position for every letter of a
placed sub-word, including letters whose column falls outside the grid, while
such out-of-bounds letters are silently not written to the grid: in the
concrete run `C10_result` the 21-letter pool word is recorded with 21
positions whose last one, (2, 27), lies outside the 15×25 bounds, yet the
resulting grid is still a well-formed 15×25 grid; by contrast every word
placed through `ver_can_be_placed` / `hor_can_be_placed` validation has all
of its recorded positions (as produced by the corresponding write loop) in
bounds. -/
theorem C10_positions_bounds :
    ((dict_get "ttttttttttttttttttttt".toList
        C10_result.2.2.game_words).isSome = true ∧
      C10_entry.positions.length = 21 ∧
      C10_entry.positions.getD 20 (0, 0) = ((2 : Int), (27 : Int)) ∧
      ¬ in_grid_bounds (C10_entry.positions.getD 20 (0, 0)) ∧
      WFGrid C10_result.2.1) ∧
    (∀ (grid : GameGrid) (w : List Char) (r0 c0 : Int) (loc : ℕ),
      WFGrid grid → ver_can_be_placed grid w r0 c0 loc = true →
      ∀ t, t < w.length →
        in_grid_bounds ((ver_write_loop r0 c0 loc 0 w grid).2.getD t (0, 0))) ∧
    (∀ (grid : GameGrid) (w : List Char) (r0 c0 : Int) (loc : ℕ),
      WFGrid grid → hor_can_be_placed grid w r0 c0 loc = true →
      ∀ t, t < w.length →
        in_grid_bounds ((hor_write_loop r0 c0 loc 0 w grid).2.getD t (0, 0))) := by
  refine ⟨by decide, ?_, ?_⟩
  · intro grid w r0 c0 loc hwf hver t ht
    have hpos := (ver_write_loop_spec r0 c0 loc w 0 grid hwf).2.2.1 t ht
    have hb := (ver_can_be_placed_letters hver t ht).1
    have harith : r0 + ((0 : ℕ) : Int) + (t : Int) - (loc : Int)
        = r0 + (t : Int) - (loc : Int) := by push_cast; ring
    rw [hpos, harith]
    exact hb
  · intro grid w r0 c0 loc hwf hhor t ht
    have hpos := (hor_write_loop_spec r0 c0 loc w 0 grid hwf).2.2.1 t ht
    have hb := (hor_can_be_placed_letters hhor t ht).1
    have harith : c0 + ((0 : ℕ) : Int) + (t : Int) - (loc : Int)
        = c0 + (t : Int) - (loc : Int) := by push_cast; ring
    rw [hpos, harith]
    exact hb

theorem C10_witness :
    in_grid_bounds
      ((ver_write_loop 5 5 0 0 "abc".toList make_grid).2.getD 0 (0, 0)) ∧
    in_grid_bounds
      ((hor_write_loop 5 5 0 0 "abc".toList make_grid).2.getD 0 (0, 0)) :=
  ⟨C10_positions_bounds.2.1 make_grid "abc".toList 5 5 0 (by decide)
      (by decide) 0 (by decide),
    C10_positions_bounds.2.2 make_grid "abc".toList 5 5 0 (by decide)
      (by decide) 0 (by decide)⟩

/-! ### Claim C1 -/

theorem in_grid_bounds_iff (r c : Int) :
    in_grid_bounds (r, c) ↔
      0 ≤ r ∧ r < (config.rows : Int) ∧ 0 ≤ c ∧ c < (config.columns : Int) :=
  Iff.rfl

theorem get_cell_eq_dot_of_not_in_bounds {g : GameGrid} (hr : g.rows = 15)
    (hc : g.columns = 25) {r c : Int} (h : ¬ in_grid_bounds (r, c)) :
    g.get_cell r c = '.' := by
  have hbn : ¬ (0 ≤ r ∧ r < (g.rows : Int) ∧ 0 ≤ c ∧ c < (g.columns : Int)) := by
    rw [hr, hc]
    intro hb
    apply h
    rw [in_grid_bounds_iff]
    exact ⟨hb.1, hb.2.1, hb.2.2.1, hb.2.2.2⟩
  unfold GameGrid.get_cell
  rw [if_neg hbn]

theorem cap_guard_iff {g : GameGrid} (hr : g.rows = 15) (hc : g.columns = 25)
    (r c : Int) :
    (if 0 ≤ r ∧ r < (config.rows : Int) then g.get_cell r c == '.' else true)
        = true ↔
      (in_grid_bounds (r, c) → g.get_cell r c = '.') := by
  rw [in_grid_bounds_iff]
  by_cases hrr : 0 ≤ r ∧ r < (config.rows : Int)
  · rw [if_pos hrr, beq_iff_eq]
    constructor
    · exact fun hd _ => hd
    · intro hs
      by_cases hcc : 0 ≤ c ∧ c < (config.columns : Int)
      · exact hs ⟨hrr.1, hrr.2, hcc.1, hcc.2⟩
      · apply get_cell_eq_dot_of_not_in_bounds hr hc
        rw [in_grid_bounds_iff]
        intro hin
        exact hcc ⟨hin.2.2.1, hin.2.2.2⟩
  · rw [if_neg hrr]
    exact ⟨fun _ hin => absurd ⟨hin.1, hin.2.1⟩ hrr, fun _ => rfl⟩

theorem mid_letter_guard_iff {g : GameGrid} (hr : g.rows = 15)
    (hc : g.columns = 25) (r c : Int) :
    (if 0 ≤ c ∧ c < (config.columns : Int) then g.get_cell r c == '.'
      else true) = true ↔
      (in_grid_bounds (r, c) → g.get_cell r c = '.') := by
  rw [in_grid_bounds_iff]
  by_cases hcc : 0 ≤ c ∧ c < (config.columns : Int)
  · rw [if_pos hcc, beq_iff_eq]
    constructor
    · exact fun hd _ => hd
    · intro hs
      by_cases hrow : 0 ≤ r ∧ r < (config.rows : Int)
      · exact hs ⟨hrow.1, hrow.2, hcc.1, hcc.2⟩
      · apply get_cell_eq_dot_of_not_in_bounds hr hc
        rw [in_grid_bounds_iff]
        intro hin
        exact hrow ⟨hin.1, hin.2.1⟩
  · rw [if_neg hcc]
    exact ⟨fun _ hin => absurd ⟨hin.2.2.1, hin.2.2.2⟩ hcc, fun _ => rfl⟩

theorem first_letter_guard_iff {g : GameGrid} (r c : Int) :
    (if 0 ≤ r then
      if 0 ≤ c ∧ c < (config.columns : Int) ∧ 0 ≤ r ∧ r < (config.rows : Int)
        then g.get_cell r c == '.' else true
      else true) = true ↔
      (in_grid_bounds (r, c) → g.get_cell r c = '.') := by
  rw [in_grid_bounds_iff]
  by_cases hcnd : 0 ≤ c ∧ c < (config.columns : Int) ∧ 0 ≤ r ∧
      r < (config.rows : Int)
  · rw [if_pos hcnd.2.2.1, if_pos hcnd, beq_iff_eq]
    exact ⟨fun hd _ => hd,
      fun hs => hs ⟨hcnd.2.2.1, hcnd.2.2.2, hcnd.1, hcnd.2.1⟩⟩
  · constructor
    · intro _ hin
      exact absurd ⟨hin.2.2.1, hin.2.2.2, hin.1, hin.2.1⟩ hcnd
    · intro _
      by_cases hr0 : 0 ≤ r
      · rw [if_pos hr0, if_neg hcnd]
      · rw [if_neg hr0]

theorem last_letter_guard_iff {g : GameGrid} (r c : Int) :
    (if r < (config.rows : Int) then
      if 0 ≤ c ∧ c < (config.columns : Int) ∧ 0 ≤ r ∧ r < (config.rows : Int)
        then g.get_cell r c == '.' else true
      else true) = true ↔
      (in_grid_bounds (r, c) → g.get_cell r c = '.') := by
  rw [in_grid_bounds_iff]
  by_cases hcnd : 0 ≤ c ∧ c < (config.columns : Int) ∧ 0 ≤ r ∧
      r < (config.rows : Int)
  · rw [if_pos hcnd.2.2.2, if_pos hcnd, beq_iff_eq]
    exact ⟨fun hd _ => hd,
      fun hs => hs ⟨hcnd.2.2.1, hcnd.2.2.2, hcnd.1, hcnd.2.1⟩⟩
  · constructor
    · intro _ hin
      exact absurd ⟨hin.2.2.1, hin.2.2.2, hin.1, hin.2.1⟩ hcnd
    · intro _
      by_cases hr0 : r < (config.rows : Int)
      · rw [if_pos hr0, if_neg hcnd]
      · rw [if_neg hr0]

/-- Claim C1: for every (15×25) grid, candidate word, anchor cell and
intersection index, `ver_can_be_placed` returns true if and only if the end
cap beyond each end of the word is unoccupied when in bounds, every letter
cell is in bounds and empty or already holding exactly the letter being
placed, and every non-intersection letter has the three horizontally
adjacent columns clear, with the narrower in-bounds row windows at the
first letter (rows row-1 and row), the last letter (rows row and row+1) and
intermediate letters (the word's own row only), as stated by
`ver_placement_spec`. -/
theorem C1_ver_can_be_placed_iff (grid : GameGrid) (w : List Char)
    (row_0 col_0 : Int) (loc : ℕ)
    (hr : grid.rows = 15) (hc : grid.columns = 25) :
    ver_can_be_placed grid w row_0 col_0 loc = true ↔
      ver_placement_spec grid w row_0 col_0 loc := by
  unfold ver_can_be_placed ver_placement_spec
  rw [Bool.and_eq_true, Bool.and_eq_true]
  constructor
  · rintro ⟨⟨hA, hB⟩, hL⟩
    refine ⟨(cap_guard_iff hr hc _ _).mp hA, (cap_guard_iff hr hc _ _).mp hB,
      ?_, ?_⟩
    · intro i hi
      have hlet := List.all_eq_true.mp hL i (List.mem_range.mpr hi)
      simp only [] at hlet
      rw [Bool.and_eq_true, Bool.and_eq_true] at hlet
      obtain ⟨⟨hbnd, hcell⟩, _⟩ := hlet
      rw [decide_eq_true_eq] at hbnd
      have harr : row_0 + ((i : Int) - (loc : Int))
          = row_0 + (i : Int) - (loc : Int) := by ring
      rw [harr] at hbnd hcell
      rw [Bool.or_eq_true, beq_iff_eq, beq_iff_eq] at hcell
      exact ⟨⟨hbnd.1, hbnd.2.1, hbnd.2.2.1, hbnd.2.2.2⟩, hcell⟩
    · intro i hi hne d hd
      have hlet := List.all_eq_true.mp hL i (List.mem_range.mpr hi)
      simp only [] at hlet
      rw [Bool.and_eq_true, Bool.and_eq_true] at hlet
      obtain ⟨⟨hbnd, hcell⟩, hadj⟩ := hlet
      have harr : row_0 + ((i : Int) - (loc : Int))
          = row_0 + (i : Int) - (loc : Int) := by ring
      rw [Bool.or_eq_true] at hadj
      rcases hadj with hoff | hadj
      · rw [beq_iff_eq] at hoff
        exact absurd (by omega : i = loc) hne
      · have hs := List.all_eq_true.mp hadj d hd
        simp only [] at hs
        by_cases hi0 : i = 0
        · rw [if_pos hi0] at hs
          refine ⟨fun _ => ?_, fun h0 _ => absurd hi0 h0,
            fun h0 _ => absurd hi0 h0⟩
          intro e he
          have ht := List.all_eq_true.mp hs e he
          simp only [] at ht
          rw [harr] at ht
          exact (first_letter_guard_iff _ _).mp ht
        · rw [if_neg hi0] at hs
          by_cases hil : i = w.length - 1
          · rw [if_pos hil] at hs
            refine ⟨fun h0 => absurd h0 hi0, fun _ _ => ?_,
              fun _ hl => absurd hil hl⟩
            intro e he
            have ht := List.all_eq_true.mp hs e he
            simp only [] at ht
            rw [harr] at ht
            exact (last_letter_guard_iff _ _).mp ht
          · rw [if_neg hil] at hs
            refine ⟨fun h0 => absurd h0 hi0, fun _ hl => absurd hl hil,
              fun _ _ => ?_⟩
            rw [harr] at hs
            exact (mid_letter_guard_iff hr hc _ _).mp hs
  · rintro ⟨hA, hB, hcells, hadj⟩
    refine ⟨⟨(cap_guard_iff hr hc _ _).mpr hA,
      (cap_guard_iff hr hc _ _).mpr hB⟩, ?_⟩
    rw [List.all_eq_true]
    intro i hmem
    rw [List.mem_range] at hmem
    simp only []
    rw [Bool.and_eq_true, Bool.and_eq_true]
    have harr : row_0 + ((i : Int) - (loc : Int))
        = row_0 + (i : Int) - (loc : Int) := by ring
    obtain ⟨hin, hcell⟩ := hcells i hmem
    rw [in_grid_bounds_iff] at hin
    refine ⟨⟨?_, ?_⟩, ?_⟩
    · rw [decide_eq_true_eq, harr]
      exact ⟨hin.1, hin.2.1, hin.2.2.1, hin.2.2.2⟩
    · rw [harr, Bool.or_eq_true, beq_iff_eq, beq_iff_eq]
      exact hcell
    · rw [Bool.or_eq_true]
      by_cases hiloc : i = loc
      · left
        rw [beq_iff_eq]
        omega
      · right
        rw [List.all_eq_true]
        intro s hs
        by_cases hi0 : i = 0
        · rw [if_pos hi0]
          rw [List.all_eq_true]
          intro t ht
          rw [harr]
          exact (first_letter_guard_iff _ _).mpr
            (((hadj i hmem hiloc s hs).1 hi0) t ht)
        · rw [if_neg hi0]
          by_cases hil : i = w.length - 1
          · rw [if_pos hil]
            rw [List.all_eq_true]
            intro t ht
            rw [harr]
            exact (last_letter_guard_iff _ _).mpr
              (((hadj i hmem hiloc s hs).2.1 hi0 hil) t ht)
          · rw [if_neg hil]
            rw [harr]
            exact (mid_letter_guard_iff hr hc _ _).mpr
              ((hadj i hmem hiloc s hs).2.2 hi0 hil)

theorem C1_witness : ver_placement_spec make_grid "abc".toList 5 5 0 :=
  (C1_ver_can_be_placed_iff make_grid "abc".toList 5 5 0 rfl rfl).mp
    (by decide)
